import Mathlib

/-!
Verification development for the dns-delegation-check resolver.

The definitions below are a shallow embedding of the record database in
src/db.rs and the ingest routine in src/dns.rs.  Rust BTreeMaps are modelled
as association lists with unique keys, HashSets as duplicate-free lists with
membership-checking insertion, the VecDeque query queue as a list whose head
is the front of the deque, and the u64 change counter as an unbounded natural
number (the counter is only ever incremented by one).  Rust panics
(the `unimplemented` arm of the hand-rolled Hash impl for RDataHash, the
`unwrap` calls inside the planner, and the unhandled transport error arm in
query_record) are modelled by returning `none`.
-/

/-- DNS name, as its normalized label sequence with the leftmost label first;
the root name `.` is the empty sequence.  Models trust_dns `rr::Name`. -/
abbrev Name := List String

/-- Result of `rr::Name::from_str "."`: the root name. -/
def rootName : Name := []

/-- Models `rr::Name::zone_of`: `zone_of a b` holds when `a` is an ancestor
of, or equal to, `b`, i.e. the labels of `a` are a trailing run of the labels
of `b`. -/
def zone_of (a b : Name) : Bool := a.isSuffixOf b

/-- Models `std::net::IpAddr`; the address payloads are kept abstract as
naturals since no claim inspects address bytes. -/
inductive IpAddr
  | v4 (addr : Nat)
  | v6 (addr : Nat)
deriving DecidableEq

/-- Models `enum RServer` from src/db.rs: a server identity is an IPv4
address, an IPv6 address, or the bootstrap sentinel `Hint`. -/
inductive RServer
  | V4 (addr : Nat)
  | V6 (addr : Nat)
  | Hint
deriving DecidableEq

/-- Models `impl From<IpAddr> for RServer` (src/db.rs): an address converts
to the matching `V4`/`V6` variant and never to `Hint`. -/
def RServer.ofIp : IpAddr → RServer
  | .v4 a => .V4 a
  | .v6 a => .V6 a

/-- Models `rr::RecordType`: the closed set handled by the source plus a
catch-all `Unknown` carrying its numeric type code. -/
inductive RecordType
  | A
  | AAAA
  | CAA
  | CNAME
  | MX
  | NS
  | NULL
  | PTR
  | SOA
  | SRV
  | TLSA
  | TXT
  | Unknown (code : Nat)
deriving DecidableEq

/-- Models `rr::RData`: a tagged variant per record type, with payloads kept
just rich enough to distinguish values.  `Unknown` stands for every variant
outside the closed set matched by the `Hash` impl of `RDataHash`. -/
inductive RData
  | A (addr : Nat)
  | AAAA (addr : Nat)
  | CAA (value : String)
  | CNAME (cname : Name)
  | MX (preference : Nat) (exchange : Name)
  | NS (nsdname : Name)
  | NULL (payload : List Nat)
  | PTR (ptrdname : Name)
  | SOA (mname : Name) (rname : Name) (serial : Nat)
  | SRV (priority : Nat) (weight : Nat) (port : Nat) (target : Name)
  | TLSA (payload : List Nat)
  | TXT (strings : List String)
  | Unknown (code : Nat) (payload : List Nat)
deriving DecidableEq

/-- Models `RData::to_record_type`. -/
def toRecordType : RData → RecordType
  | .A _ => .A
  | .AAAA _ => .AAAA
  | .CAA _ => .CAA
  | .CNAME _ => .CNAME
  | .MX _ _ => .MX
  | .NS _ => .NS
  | .NULL _ => .NULL
  | .PTR _ => .PTR
  | .SOA _ _ _ => .SOA
  | .SRV _ _ _ _ => .SRV
  | .TLSA _ => .TLSA
  | .TXT _ => .TXT
  | .Unknown c _ => .Unknown c

/-- Models `RData::as_ns`: the nameserver name of an `NS` record. -/
def as_ns : RData → Option Name
  | .NS n => some n
  | _ => none

/-- Models `RData::to_ip_addr`: defined for `A` and `AAAA` payloads only. -/
def to_ip_addr : RData → Option IpAddr
  | .A a => some (IpAddr.v4 a)
  | .AAAA a => some (IpAddr.v6 a)
  | _ => none

/-- Models the hand-rolled `impl Hash for RDataHash` in src/db.rs: the twelve
closed-set variants hash their payload; the wildcard arm is
`unimplemented` and panics, so `Unknown` is the unhashable variant. -/
def hashable : RData → Bool
  | .Unknown _ _ => false
  | _ => true

/-- Models `rr::Record` as used by the source: a name plus its RData (the
source only ever reads `record.name()` and `record.rdata()`). -/
structure Record where
  name : Name
  rdata : RData
deriving DecidableEq

/-- Models `enum REntry` from src/db.rs. -/
inductive REntry
  | NoEntry
  | TimeOut
  | Entries (entries : List RData)
deriving DecidableEq

/-- True exactly on the `Entries` variant. -/
def isEntries : REntry → Bool
  | .Entries _ => true
  | _ => false

/-- Association-list lookup, modelling `BTreeMap::get`. -/
def lookupA {α β : Type} [DecidableEq α] : List (α × β) → α → Option β
  | [], _ => none
  | (k, v) :: rest, k' => if k' = k then some v else lookupA rest k'

/-- Models the `map.entry(k).and_modify(f).or_insert(d)` idiom on a BTreeMap:
if `k` is bound, its value is replaced by `f` of it, otherwise `(k, d)` is
added.  (The position of the new binding in the underlying list is
immaterial to every claim; iteration order of the model is insertion
order.) -/
def entryUpsert {α β : Type} [DecidableEq α] (m : List (α × β)) (k : α) (f : β → β) (d : β) :
    List (α × β) :=
  match m with
  | [] => [(k, d)]
  | (k', v) :: rest => if k = k' then (k', f v) :: rest else (k', v) :: entryUpsert rest k f d

/-- Models `HashSet::insert`: adds `x` when absent, keeps the set otherwise. -/
def setInsert {α : Type} [DecidableEq α] (s : List α) (x : α) : List α :=
  if x ∈ s then s else s ++ [x]

/-- Per-name server map: models `BTreeMap<RServer, REntry>`. -/
abbrev ServerMap := List (RServer × REntry)

/-- The two-level record store: models `BTreeMap<rr::Name, BTreeMap<RServer, REntry>>`. -/
abbrev Records := List (Name × ServerMap)

/-- A queued probe: models the tuples held in `query_queue`
`(rr::Name, rr::RecordType, IpAddr, Option<rr::Name>)`. -/
abbrev Probe := Name × RecordType × IpAddr × Option Name

/-- Models `struct RecordDB` from src/db.rs. -/
structure RecordDB where
  delegations : List ((Name × Name) × List (Name × Name))
  records : Records
  answer_targets : List (Name × RecordType)
  targets : List (Name × RecordType × Name)
  query_queue : List Probe
  change_num : Nat
deriving DecidableEq

/-- Models `RecordDB::new`. -/
def RecordDB.new : RecordDB :=
  { delegations := []
    records := []
    answer_targets := []
    targets := []
    query_queue := []
    change_num := 0 }

/-- The `and_modify` closure used for `Hint` slots in `add_root_hints`:
append to an existing `Entries`, replace any other state by a fresh
`Entries` ("Hints shouldn't timeout or return nx"). -/
def hintModify (rd : RData) : REntry → REntry
  | .Entries v => .Entries (v ++ [rd])
  | _ => .Entries [rd]

/-- Models `RecordDB::add_root_hints`: for each `(name, ip)` an `A`/`AAAA`
RData is injected under `(name, Hint)` and an `NS name` RData under
`(., Hint)`.  The change counter is not touched. -/
def RecordDB.add_root_hints (s : RecordDB) (hints : List (Name × IpAddr)) : RecordDB :=
  hints.foldl
    (fun st h =>
      let rdata : RData :=
        match h.2 with
        | .v4 a => RData.A a
        | .v6 a => RData.AAAA a
      let st1 :=
        { st with
            records := entryUpsert st.records h.1
              (fun m => entryUpsert m RServer.Hint (hintModify rdata) (REntry.Entries [rdata]))
              (entryUpsert [] RServer.Hint (hintModify rdata) (REntry.Entries [rdata])) }
      let rdata2 : RData := RData.NS h.1
      { st1 with
          records := entryUpsert st1.records rootName
            (fun m => entryUpsert m RServer.Hint (hintModify rdata2) (REntry.Entries [rdata2]))
            (entryUpsert [] RServer.Hint (hintModify rdata2) (REntry.Entries [rdata2])) })
    s

/-- Models `RecordDB::add_delegation`. -/
def RecordDB.add_delegation (s : RecordDB) (name zone auth_zone auth_ns : Name) : RecordDB :=
  { s with
      change_num := s.change_num + 1
      delegations := entryUpsert s.delegations (name, zone)
        (fun dset => setInsert dset (auth_zone, auth_ns))
        (setInsert [] (auth_zone, auth_ns)) }

/-- The `and_modify` closure of `add_record`: append to `Entries`, replace
`TimeOut` or `NoEntry` with a singleton `Entries`. -/
def recordModify (rd : RData) : REntry → REntry
  | .Entries v => .Entries (v ++ [rd])
  | .TimeOut => .Entries [rd]
  | .NoEntry => .Entries [rd]

/-- Models `RecordDB::add_record`. -/
def RecordDB.add_record (s : RecordDB) (rec : Record) (server_ip : IpAddr) : RecordDB :=
  { s with
      change_num := s.change_num + 1
      records := entryUpsert s.records rec.name
        (fun m => entryUpsert m (RServer.ofIp server_ip) (recordModify rec.rdata)
          (REntry.Entries [rec.rdata]))
        (entryUpsert [] (RServer.ofIp server_ip) (recordModify rec.rdata)
          (REntry.Entries [rec.rdata])) }

/-- The `and_modify` closure of `add_rentry`: an existing `Entries` is kept,
an existing `TimeOut` is replaced by the received rentry, and an existing
`NoEntry` stays `NoEntry` (a received `TimeOut` is absorbed, anything else is
ignored). -/
def rentryModify (re : REntry) : REntry → REntry
  | .Entries v => .Entries v
  | .TimeOut => re
  | .NoEntry =>
    match re with
    | .TimeOut => .NoEntry
    | _ => .NoEntry

/-- Models `RecordDB::add_rentry`. -/
def RecordDB.add_rentry (s : RecordDB) (name : Name) (re : REntry) (server_ip : IpAddr) :
    RecordDB :=
  { s with
      change_num := s.change_num + 1
      records := entryUpsert s.records name
        (fun m => entryUpsert m (RServer.ofIp server_ip) (rentryModify re) re)
        (entryUpsert [] (RServer.ofIp server_ip) (rentryModify re) re) }

/-- Lookup of the whole per-server map of a name, on a raw store. -/
def getRecordsR (r : Records) (name : Name) : ServerMap :=
  (lookupA r name).getD []

/-- Models `RecordDB::get_records`: clone of the per-server map, or empty. -/
def RecordDB.get_records (s : RecordDB) (name : Name) : ServerMap :=
  getRecordsR s.records name

/-- One `HashSet::insert` on the dedup set of `get_record_set`: hashing the
item panics (`none`) when the variant is outside the closed set; otherwise
the item is added unless an equal item is already present. -/
def insertHash (acc : List RData) (d : RData) : Option (List RData) :=
  if hashable d then some (if d ∈ acc then acc else acc ++ [d]) else none

/-- Models `RecordDB::get_record_set` on a raw store: the union over all
servers of the stored `Entries` items whose record type equals `rtype`,
deduplicated through a `HashSet<RDataHash>`.  `none` models the panic of the
partial hash on an unknown-variant item of the requested type. -/
def getRecordSetR (r : Records) (name : Name) (rtype : RecordType) : Option (List RData) :=
  match lookupA r name with
  | none => some []
  | some servers =>
    servers.foldlM
      (fun acc se =>
        match se.2 with
        | REntry.Entries items =>
          items.foldlM
            (fun acc2 d => if toRecordType d = rtype then insertHash acc2 d else some acc2)
            acc
        | _ => some acc)
      []

/-- Models `RecordDB::get_record_set`. -/
def RecordDB.get_record_set (s : RecordDB) (name : Name) (rtype : RecordType) :
    Option (List RData) :=
  getRecordSetR s.records name rtype

/-- The items `get_record_set` feeds to its dedup set, in iteration order:
all stored `Entries` items of the per-server map whose type matches. -/
def collectTyped (servers : ServerMap) (rtype : RecordType) : List RData :=
  servers.foldl
    (fun acc se =>
      match se.2 with
      | REntry.Entries items => acc ++ items.filter (fun d => decide (toRecordType d = rtype))
      | _ => acc)
    []

/-- Models `RecordDB::add_answer_target`: inserts into `answer_targets` and
`(name, rtype, .)` into `targets`, then increments the change counter
unconditionally (the growth checks in the source only guard debug logging). -/
def RecordDB.add_answer_target (s : RecordDB) (name : Name) (rtype : RecordType) : RecordDB :=
  let s1 := { s with answer_targets := setInsert s.answer_targets (name, rtype) }
  let s2 := { s1 with targets := setInsert s1.targets (name, rtype, rootName) }
  { s2 with change_num := s2.change_num + 1 }

/-- Models `RecordDB::is_answer_target`. -/
def RecordDB.is_answer_target (s : RecordDB) (name : Name) (rtype : RecordType) : Bool :=
  decide ((name, rtype) ∈ s.answer_targets)

/-- Models `RecordDB::add_target`: set insertion plus an unconditional
counter increment. -/
def RecordDB.add_target (s : RecordDB) (name : Name) (rtype : RecordType) (zone : Name) :
    RecordDB :=
  let s1 := { s with targets := setInsert s.targets (name, rtype, zone) }
  { s1 with change_num := s1.change_num + 1 }

/-- Models the `this_match_count` computation of `find_closest_domain`:
count of positionwise equal labels of the two reversed label sequences. -/
def countMatchingTail (a b : Name) : Nat :=
  ((a.reverse.zip b.reverse).filter (fun p => p.1 = p.2)).length

/-- Models `RecordDB::find_closest_domain`: scan the stored names, keep the
ancestor of `name` with the largest trailing-label match count, starting
from `(. , 0)`. -/
def RecordDB.find_closest_domain (s : RecordDB) (name : Name) : Name :=
  (s.records.foldl
    (fun (acc : Name × Nat) pair =>
      if zone_of pair.1 name then
        let c := countMatchingTail pair.1 name
        if acc.2 < c then (pair.1, c) else acc
      else acc)
    (rootName, 0)).1

/-- Appends `pushProbe` state change: `query_queue.push_front(probe)` plus
`change_num += 1`, the only two mutations the planner loop performs. -/
def pushProbe (st : RecordDB) (p : Probe) : RecordDB :=
  { st with query_queue := p :: st.query_queue, change_num := st.change_num + 1 }

/-- Models the innermost planner loop `for ip in &ns_ips { ... push_front ... }`:
every ip of the NS is re-enqueued.  `to_ip_addr().unwrap()` panics are `none`. -/
def genPushAll (name : Name) (rtype : RecordType) (zone : Name) (ns_ips : List RData)
    (st : RecordDB) : Option RecordDB :=
  ns_ips.foldlM
    (fun st2 ipRd =>
      (to_ip_addr ipRd).map (fun ip => pushProbe st2 (name, rtype, ip, some zone)))
    st

/-- Models the planner loop `for ip in &ns_ips` that checks, per candidate
server ip, whether `name_records` already holds an entry from that server,
and otherwise enqueues a probe for every ip of the NS. -/
def genIpLoop (name : Name) (rtype : RecordType) (zone : Name) (name_records : ServerMap)
    (ns_ips : List RData) (st : RecordDB) : Option RecordDB :=
  ns_ips.foldlM
    (fun st2 ipRd =>
      (to_ip_addr ipRd).bind (fun ip =>
        if (lookupA name_records (RServer.ofIp ip)).isSome then some st2
        else genPushAll name rtype zone ns_ips st2))
    st

/-- Models the planner loop `for ns in zone_ns`: `ns.as_ns().unwrap()`, fetch
the A record set of the NS name, then run the ip loop. -/
def genNsLoop (name : Name) (rtype : RecordType) (zone : Name) (name_records : ServerMap)
    (zone_ns : List RData) (st : RecordDB) : Option RecordDB :=
  zone_ns.foldlM
    (fun st1 nsRd =>
      (as_ns nsRd).bind (fun ns =>
        (getRecordSetR st1.records ns RecordType.A).bind (fun ns_ips =>
          genIpLoop name rtype zone name_records ns_ips st1)))
    st

/-- Models one iteration of the outer planner loop `for (name, rtype, zone)
in &self.targets`. -/
def genTarget (st : RecordDB) (t : Name × RecordType × Name) : Option RecordDB :=
  (getRecordSetR st.records t.2.2 RecordType.NS).bind (fun zone_ns =>
    genNsLoop t.1 t.2.1 t.2.2 (getRecordsR st.records t.1) zone_ns st)

/-- Models `RecordDB::generate_queries`.  The first loop of the source (over
`answer_targets`) has an empty body and the local `missing_entries` counter
is never read, so neither is represented. -/
def RecordDB.generate_queries (s : RecordDB) : Option RecordDB :=
  s.targets.foldlM genTarget s

/-- A DNS exchange outcome as seen by `query_record` (src/dns.rs): a
transport timeout, any other transport error (whose arm in the source is
`unimplemented` and panics), or a response as a list of messages. -/
structure Message where
  answers : List Record
  additionals : List Record
  name_servers : List Record
deriving DecidableEq

inductive DnsResult
  | timeout
  | failure
  | response (msgs : List Message)

/-- Models the authority-section body of `query_record`: store the record;
if it is an `NS` and a zone was supplied, log the delegation; and if
`(name, rtype)` is an answer target, register the newly delegated zone as an
intermediate target. -/
def addNsRecord (name : Name) (rtype : RecordType) (server_ip : IpAddr) (zone : Option Name)
    (st : RecordDB) (rec : Record) : RecordDB :=
  let st1 := st.add_record rec server_ip
  let st2 :=
    match as_ns rec.rdata, zone with
    | some ns, some z => st1.add_delegation name z rec.name ns
    | _, _ => st1
  if st2.is_answer_target name rtype then st2.add_target name rtype rec.name else st2

/-- Models the per-message body of `query_record`: answers (tracking
`has_answer`), additionals, then the authority section. -/
def addMsg (name : Name) (rtype : RecordType) (server_ip : IpAddr) (zone : Option Name)
    (acc : RecordDB × Bool) (msg : Message) : RecordDB × Bool :=
  let st1 := msg.answers.foldl (fun st r => st.add_record r server_ip) acc.1
  let has1 := acc.2 || !msg.answers.isEmpty
  let st2 := msg.additionals.foldl (fun st r => st.add_record r server_ip) st1
  let st3 := msg.name_servers.foldl (addNsRecord name rtype server_ip zone) st2
  (st3, has1)

/-- Models `query_record` from src/dns.rs, with the DNS exchange outcome
supplied as an argument (the wire transport is external).  A timeout is
absorbed as a `TimeOut` rentry; any other transport error hits the
`unimplemented` arm (`none`); a response is folded into the store message by
message, and a `NoEntry` rentry is recorded when no message carried an
answer. -/
def query_record (st : RecordDB) (server_ip : IpAddr) (name : Name) (rtype : RecordType)
    (zone : Option Name) (res : DnsResult) : Option RecordDB :=
  match res with
  | .timeout => some (st.add_rentry name REntry.TimeOut server_ip)
  | .failure => none
  | .response msgs =>
    let r := msgs.foldl (addMsg name rtype server_ip zone) (st, false)
    if r.2 then some r.1 else some (r.1.add_rentry name REntry.NoEntry server_ip)

/-- An oracle giving the DNS exchange outcome of each probe; it stands for
the external transport consumed by `perform_queries`. -/
abbrev DnsOracle := Probe → DnsResult

/-- Fuel-indexed loop of `perform_queries`: `while let Some(query) =
self.query_queue.pop_front()`, dispatching each popped probe through
`query_record`.  The returned list records the dispatch order.  `query_record`
never touches the queue, so fuel equal to the initial queue length always
suffices; exhausted fuel with a non-empty queue yields `none`. -/
def performQueriesFuel (oracle : DnsOracle) : Nat → RecordDB → Option (RecordDB × List Probe)
  | 0, st =>
    match st.query_queue with
    | [] => some (st, [])
    | _ :: _ => none
  | fuel + 1, st =>
    match st.query_queue with
    | [] => some (st, [])
    | p :: rest =>
      match query_record { st with query_queue := rest } p.2.2.1 p.1 p.2.1 p.2.2.2 (oracle p) with
      | none => none
      | some st1 =>
        match performQueriesFuel oracle fuel st1 with
        | none => none
        | some (st2, ds) => some (st2, p :: ds)

/-- Models `RecordDB::perform_queries` (instrumented with the dispatch
order). -/
def RecordDB.perform_queries (oracle : DnsOracle) (s : RecordDB) :
    Option (RecordDB × List Probe) :=
  performQueriesFuel oracle s.query_queue.length s

/-- Fuel-indexed body of `action_loop`: `let mut change_num = 0; while
change_num != self.change_num { change_num = self.change_num;
generate_queries(); perform_queries(); }`.  Returns the final store and the
number of planning passes performed. -/
def actionLoopAux (oracle : DnsOracle) : Nat → Nat → RecordDB → Option (RecordDB × Nat)
  | 0, c, s => if c = s.change_num then some (s, 0) else none
  | fuel + 1, c, s =>
    if c = s.change_num then some (s, 0)
    else
      match s.generate_queries with
      | none => none
      | some s1 =>
        match RecordDB.perform_queries oracle s1 with
        | none => none
        | some (s2, _) =>
          match actionLoopAux oracle fuel s.change_num s2 with
          | none => none
          | some (s3, k) => some (s3, k + 1)

/-- Models `RecordDB::action_loop`, with loop fuel. -/
def RecordDB.action_loop (oracle : DnsOracle) (fuel : Nat) (s : RecordDB) :
    Option (RecordDB × Nat) :=
  actionLoopAux oracle fuel 0 s

/-- Chronological concatenation of per-element contributions, used to state
what a planner pass enqueues: `accMap h l` lists the contributions of the
elements of `l` in iteration order. -/
def accMap {α β : Type} (h : α → List β) (l : List α) : List β :=
  l.foldl (fun acc x => acc ++ h x) []

/-- The probe pushed for one candidate ip RData (empty on a non-address
variant, which the planner would have panicked on). -/
def probeOfIp (name : Name) (rtype : RecordType) (zone : Name) (ipRd : RData) : List Probe :=
  match to_ip_addr ipRd with
  | some ip => [(name, rtype, ip, some zone)]
  | none => []

/-- All probes pushed by one execution of the innermost re-enqueue loop. -/
def ipProbes (name : Name) (rtype : RecordType) (zone : Name) (ns_ips : List RData) :
    List Probe :=
  accMap (probeOfIp name rtype zone) ns_ips

/-- Contribution of one candidate ip in the checking loop: nothing when
`name_records` already has an entry from that server, otherwise one probe per
ip of the NS. -/
def checkProbe (name : Name) (rtype : RecordType) (zone : Name) (name_records : ServerMap)
    (ns_ips : List RData) (ipRd : RData) : List Probe :=
  match to_ip_addr ipRd with
  | none => []
  | some ip =>
    if (lookupA name_records (RServer.ofIp ip)).isSome then []
    else ipProbes name rtype zone ns_ips

/-- Contribution of one NS name of the zone. -/
def nsProbes (r : Records) (name : Name) (rtype : RecordType) (zone : Name)
    (name_records : ServerMap) (nsRd : RData) : List Probe :=
  match as_ns nsRd with
  | none => []
  | some ns =>
    match getRecordSetR r ns RecordType.A with
    | none => []
    | some ns_ips => accMap (checkProbe name rtype zone name_records ns_ips) ns_ips

/-- Contribution of one target of the planner pass. -/
def targetProbes (r : Records) (t : Name × RecordType × Name) : List Probe :=
  match getRecordSetR r t.2.2 RecordType.NS with
  | none => []
  | some zone_ns => accMap (nsProbes r t.1 t.2.1 t.2.2 (getRecordsR r t.1)) zone_ns

/-- The probes one planning pass enqueues, in chronological enqueue order, as
a function of the record store and target set alone. -/
def plannedProbes (r : Records) (targets : List (Name × RecordType × Name)) : List Probe :=
  accMap (targetProbes r) targets

/-- Net store change of a planning pass that enqueues `ps` in chronological
order: each probe was pushed at the queue front and bumped the counter. -/
def genApply (ps : List Probe) (st : RecordDB) : RecordDB :=
  { st with
      query_queue := ps.reverse ++ st.query_queue
      change_num := st.change_num + ps.length }

/-- The planner viewed as a state transformer with a fixed chronological
probe list: used to characterize `generate_queries`. -/
def GenStep (r : Records) (g : RecordDB → Option RecordDB) (ps : List Probe) : Prop :=
  ∀ st : RecordDB, st.records = r → g st = some (genApply ps st)

/-- The public mutating operations of `RecordDB`, with the DNS outcomes of
`perform_queries` supplied by an oracle. -/
inductive Op
  | rootHints (hints : List (Name × IpAddr))
  | record (rec : Record) (server_ip : IpAddr)
  | rentry (name : Name) (re : REntry) (server_ip : IpAddr)
  | delegation (name zone auth_zone auth_ns : Name)
  | answerTarget (name : Name) (rtype : RecordType)
  | target (name : Name) (rtype : RecordType) (zone : Name)
  | planQueries
  | runQueries (oracle : DnsOracle)

/-- One public operation applied to a store; `none` models a panic. -/
def applyOp (s : RecordDB) : Op → Option RecordDB
  | .rootHints hints => some (s.add_root_hints hints)
  | .record rec ip => some (s.add_record rec ip)
  | .rentry n re ip => some (s.add_rentry n re ip)
  | .delegation n z az ans => some (s.add_delegation n z az ans)
  | .answerTarget n t => some (s.add_answer_target n t)
  | .target n t z => some (s.add_target n t z)
  | .planQueries => s.generate_queries
  | .runQueries oracle => (RecordDB.perform_queries oracle s).map (fun p => p.1)

/-- The store states reachable from `RecordDB::new` by public operations. -/
inductive Reachable : RecordDB → Prop
  | base : Reachable RecordDB.new
  | step {s s' : RecordDB} (op : Op) : Reachable s → applyOp s op = some s' → Reachable s'

/-- The C4 invariant on a raw store: every `Hint` slot holds `Entries`. -/
def HintOk (r : Records) : Prop :=
  ∀ p ∈ r, ∀ se ∈ p.2, se.1 = RServer.Hint → isEntries se.2 = true

/-- The `(name, server)` slot of a store. -/
def slotOf (s : RecordDB) (name : Name) (k : RServer) : Option REntry :=
  match lookupA s.records name with
  | none => none
  | some m => lookupA m k

/-- The C4 slot predicate: a `Hint` key maps to `Entries`. -/
def QHint (se : RServer × REntry) : Prop := se.1 = RServer.Hint → isEntries se.2 = true

/-- Per-server contribution to `collectTyped`. -/
def typedItems (t : RecordType) (se : RServer × REntry) : List RData :=
  match se.2 with
  | REntry.Entries items => items.filter (fun d => decide (toRecordType d = t))
  | _ => []

/-- The fold step of `find_closest_domain`. -/
def fcdStep (name : Name) (acc : Name × Nat) (pair : Name × ServerMap) : Name × Nat :=
  if zone_of pair.1 name then
    let c := countMatchingTail pair.1 name
    if acc.2 < c then (pair.1, c) else acc
  else acc

/-! Concrete stores used to instantiate the claims. -/

/-- An oracle whose every exchange times out. -/
def oracleTimeout : DnsOracle := fun _ => DnsResult.timeout

def nsName : Name := ["ns", "example"]

def zName : Name := ["example"]

def qName : Name := ["www", "example"]

/-- A store holding an NS record for the zone `example.`, two glue A records
for its nameserver, and one pending target: the planner enqueues four probes
from it (each of the two missing server ips re-enqueues both ips). -/
def exC1 : RecordDB :=
  { delegations := []
    records :=
      [ (zName, [(RServer.Hint, REntry.Entries [RData.NS nsName])])
      , (nsName, [(RServer.Hint, REntry.Entries [RData.A 1, RData.A 2])]) ]
    answer_targets := []
    targets := [(qName, RecordType.A, zName)]
    query_queue := []
    change_num := 0 }

/-- The store after one planning pass on `exC1`. -/
def exC1s1 : RecordDB := (RecordDB.generate_queries exC1).getD RecordDB.new

/-- The store and dispatch order after draining `exC1s1` with timeouts. -/
def exC1run : RecordDB × List Probe :=
  (RecordDB.perform_queries oracleTimeout exC1s1).getD (RecordDB.new, [])

/-- The store after a second planning pass with no intervening ingest. -/
def exC2s2 : RecordDB := (RecordDB.generate_queries exC1s1).getD RecordDB.new

def uName : Name := ["u", "example"]

/-- An unknown-variant record (type code 7), unhashable by `RDataHash`. -/
def exRecU : Record := { name := uName, rdata := RData.Unknown 7 [] }

/-- A store holding an unknown-variant record under `uName`. -/
def exC7 : RecordDB :=
  { RecordDB.new with
      records := [(uName, [(RServer.V4 9, REntry.Entries [RData.Unknown 7 []])])] }

/-- Stores exposing one `(qName, V4 5)` slot in each of the three states. -/
def exSlotE : RecordDB :=
  { RecordDB.new with records := [(qName, [(RServer.V4 5, REntry.Entries [RData.A 1])])] }

def exSlotT : RecordDB :=
  { RecordDB.new with records := [(qName, [(RServer.V4 5, REntry.TimeOut)])] }

def exSlotN : RecordDB :=
  { RecordDB.new with records := [(qName, [(RServer.V4 5, REntry.NoEntry)])] }

/-- A record used to exercise `add_record` / `add_rentry`. -/
def exRecA : Record := { name := qName, rdata := RData.A 3 }

/-- Root hints for the witness runs. -/
def exHints : List (Name × IpAddr) :=
  [ (["a", "root-servers", "net"], IpAddr.v4 41)
  , (["a", "root-servers", "net"], IpAddr.v6 42) ]

/-- A store for the closest-domain scenario: records at `.`, `com.` and
`google.com.`. -/
def exC9 : RecordDB :=
  { RecordDB.new with
      records :=
        [ (rootName, [(RServer.Hint, REntry.Entries [RData.NS ["a", "root-servers", "net"]])])
        , (["com"], [(RServer.V4 9, REntry.Entries [RData.NS ["ns", "com"]])])
        , (["google", "com"], [(RServer.V4 9, REntry.Entries [RData.A 5])]) ] }

def exC9query : Name := ["mail", "google", "com"]

/-! ### Generic lemmas about the container models -/

theorem lookupA_entryUpsert_self {α β : Type} [DecidableEq α] (m : List (α × β)) (k : α)
    (f : β → β) (d : β) :
    lookupA (entryUpsert m k f d) k =
      some (match lookupA m k with | some v => f v | none => d) := by
  induction m with
  | nil => simp [entryUpsert, lookupA]
  | cons p rest ih =>
    obtain ⟨k', v⟩ := p
    by_cases h : k = k'
    · subst h
      simp [entryUpsert, lookupA]
    · simp [entryUpsert, lookupA, h, ih]

theorem setInsert_self_mem {α : Type} [DecidableEq α] (s : List α) (x : α) :
    x ∈ setInsert s x := by
  unfold setInsert
  by_cases h : x ∈ s
  · simp [h]
  · simp [h]

theorem setInsert_of_mem {α : Type} [DecidableEq α] {s : List α} {x : α} (h : x ∈ s) :
    setInsert s x = s := by
  simp [setInsert, h]

theorem foldl_le_measure {α β : Type} (g : β → α → β) (m : β → Nat) (l : List α)
    (h : ∀ st x, m st ≤ m (g st x)) : ∀ st, m st ≤ m (l.foldl g st) := by
  induction l with
  | nil => intro st; exact Nat.le_refl _
  | cons x t ih => intro st; exact Nat.le_trans (h st x) (ih (g st x))

theorem foldl_fields {α : Type} (g : RecordDB → α → RecordDB) (l : List α)
    (h : ∀ st x, (g st x).change_num = st.change_num ∧
      (g st x).answer_targets = st.answer_targets ∧ (g st x).targets = st.targets ∧
      (g st x).delegations = st.delegations ∧ (g st x).query_queue = st.query_queue) :
    ∀ st, (l.foldl g st).change_num = st.change_num ∧
      (l.foldl g st).answer_targets = st.answer_targets ∧ (l.foldl g st).targets = st.targets ∧
      (l.foldl g st).delegations = st.delegations ∧
      (l.foldl g st).query_queue = st.query_queue := by
  induction l with
  | nil => intro st; exact ⟨rfl, rfl, rfl, rfl, rfl⟩
  | cons x t ih =>
    intro st
    obtain ⟨h1, h2, h3, h4, h5⟩ := h st x
    obtain ⟨g1, g2, g3, g4, g5⟩ := ih (g st x)
    exact ⟨h1 ▸ g1, h2 ▸ g2, h3 ▸ g3, h4 ▸ g4, h5 ▸ g5⟩

/-! ### Slot behaviour of add_record and add_rentry -/

theorem slotOf_add_record (s : RecordDB) (rec : Record) (ip : IpAddr) :
    slotOf (s.add_record rec ip) rec.name (RServer.ofIp ip) =
      some (match slotOf s rec.name (RServer.ofIp ip) with
            | some e => recordModify rec.rdata e
            | none => REntry.Entries [rec.rdata]) := by
  unfold slotOf RecordDB.add_record
  simp only [lookupA_entryUpsert_self]
  cases h : lookupA s.records rec.name with
  | none => simp [lookupA_entryUpsert_self, lookupA]
  | some m =>
    simp only [lookupA_entryUpsert_self]
    cases lookupA m (RServer.ofIp ip) <;> rfl

theorem slotOf_add_rentry (s : RecordDB) (n : Name) (re : REntry) (ip : IpAddr) :
    slotOf (s.add_rentry n re ip) n (RServer.ofIp ip) =
      some (match slotOf s n (RServer.ofIp ip) with
            | some e => rentryModify re e
            | none => re) := by
  unfold slotOf RecordDB.add_rentry
  simp only [lookupA_entryUpsert_self]
  cases h : lookupA s.records n with
  | none => simp [lookupA_entryUpsert_self, lookupA]
  | some m =>
    simp only [lookupA_entryUpsert_self]
    cases lookupA m (RServer.ofIp ip) <;> rfl

/-! ### C6: per-slot promotion and absorption state machine -/

/-- C6: for every `(name, server)` slot, `add_record` and `add_rentry` follow
the promotion/absorption state machine: `add_record` on an `Entries` slot
appends the RData; `add_record` on a `TimeOut` or `NoEntry` slot replaces it
with a singleton `Entries`; `add_rentry` leaves an existing `Entries` slot
unchanged; `add_rentry TimeOut` on an existing `NoEntry` slot leaves it
`NoEntry`; `add_rentry NoEntry` on an existing `TimeOut` slot replaces it
with `NoEntry`. -/
theorem c6_slot_state_machine (s1 s2 s3 s4 s5 : RecordDB) (rec : Record) (ip : IpAddr)
    (n : Name) (re : REntry) (v : List RData) :
    (slotOf s1 rec.name (RServer.ofIp ip) = some (REntry.Entries v) →
      slotOf (s1.add_record rec ip) rec.name (RServer.ofIp ip) =
        some (REntry.Entries (v ++ [rec.rdata]))) ∧
    (slotOf s2 rec.name (RServer.ofIp ip) = some REntry.TimeOut ∨
        slotOf s2 rec.name (RServer.ofIp ip) = some REntry.NoEntry →
      slotOf (s2.add_record rec ip) rec.name (RServer.ofIp ip) =
        some (REntry.Entries [rec.rdata])) ∧
    (slotOf s3 n (RServer.ofIp ip) = some (REntry.Entries v) →
      slotOf (s3.add_rentry n re ip) n (RServer.ofIp ip) = some (REntry.Entries v)) ∧
    (slotOf s4 n (RServer.ofIp ip) = some REntry.NoEntry →
      slotOf (s4.add_rentry n REntry.TimeOut ip) n (RServer.ofIp ip) = some REntry.NoEntry) ∧
    (slotOf s5 n (RServer.ofIp ip) = some REntry.TimeOut →
      slotOf (s5.add_rentry n REntry.NoEntry ip) n (RServer.ofIp ip) = some REntry.NoEntry) := by
  refine ⟨fun h => ?_, fun h => ?_, fun h => ?_, fun h => ?_, fun h => ?_⟩
  · rw [slotOf_add_record, h]; rfl
  · rcases h with h | h <;> (rw [slotOf_add_record, h]; rfl)
  · rw [slotOf_add_rentry, h]; rfl
  · rw [slotOf_add_rentry, h]; rfl
  · rw [slotOf_add_rentry, h]; rfl

/-- Witness for C6 at concrete slots in each of the three states. -/
theorem c6_witness :
    slotOf (exSlotE.add_record exRecA (IpAddr.v4 5)) qName (RServer.ofIp (IpAddr.v4 5)) =
      some (REntry.Entries [RData.A 1, RData.A 3]) ∧
    slotOf (exSlotT.add_record exRecA (IpAddr.v4 5)) qName (RServer.ofIp (IpAddr.v4 5)) =
      some (REntry.Entries [RData.A 3]) ∧
    slotOf (exSlotE.add_rentry qName REntry.TimeOut (IpAddr.v4 5)) qName
      (RServer.ofIp (IpAddr.v4 5)) = some (REntry.Entries [RData.A 1]) ∧
    slotOf (exSlotN.add_rentry qName REntry.TimeOut (IpAddr.v4 5)) qName
      (RServer.ofIp (IpAddr.v4 5)) = some REntry.NoEntry ∧
    slotOf (exSlotT.add_rentry qName REntry.NoEntry (IpAddr.v4 5)) qName
      (RServer.ofIp (IpAddr.v4 5)) = some REntry.NoEntry := by
  obtain ⟨h1, h2, h3, h4, h5⟩ :=
    c6_slot_state_machine exSlotE exSlotT exSlotE exSlotN exSlotT exRecA (IpAddr.v4 5) qName
      REntry.TimeOut [RData.A 1]
  exact ⟨h1 (by decide), h2 (Or.inl (by decide)), h3 (by decide), h4 (by decide),
    h5 (by decide)⟩

/-! ### C3: add_answer_target -/

/-- C3 counterexample: applying `add_answer_target` twice at a concrete input
bumps `change_num` again on the second call, refuting the claimed
idempotence of the change counter (the counter is incremented
unconditionally; the growth checks only guard debug logging). -/
theorem c3_counterexample :
    ¬ (((RecordDB.new.add_answer_target qName RecordType.A).add_answer_target qName
          RecordType.A).change_num =
        (RecordDB.new.add_answer_target qName RecordType.A).change_num) := by
  decide

/-- C3 amended: a second identical `add_answer_target` leaves both target
sets unchanged, but still bumps `change_num` by one: the counter is bumped on
every call regardless of set growth. -/
theorem c3_amended (s : RecordDB) (n : Name) (t : RecordType) :
    ((s.add_answer_target n t).add_answer_target n t).answer_targets =
      (s.add_answer_target n t).answer_targets ∧
    ((s.add_answer_target n t).add_answer_target n t).targets =
      (s.add_answer_target n t).targets ∧
    ((s.add_answer_target n t).add_answer_target n t).change_num =
      (s.add_answer_target n t).change_num + 1 := by
  refine ⟨?_, ?_, rfl⟩
  · show setInsert (setInsert s.answer_targets (n, t)) (n, t) = setInsert s.answer_targets (n, t)
    exact setInsert_of_mem (setInsert_self_mem _ _)
  · show setInsert (setInsert s.targets (n, t, rootName)) (n, t, rootName) =
      setInsert s.targets (n, t, rootName)
    exact setInsert_of_mem (setInsert_self_mem _ _)

/-! ### C10: add_root_hints frame and the empty action loop -/

theorem add_root_hints_fields (s : RecordDB) (hints : List (Name × IpAddr)) :
    (s.add_root_hints hints).change_num = s.change_num ∧
    (s.add_root_hints hints).answer_targets = s.answer_targets ∧
    (s.add_root_hints hints).targets = s.targets ∧
    (s.add_root_hints hints).delegations = s.delegations ∧
    (s.add_root_hints hints).query_queue = s.query_queue := by
  unfold RecordDB.add_root_hints
  apply foldl_fields
  intro st x
  exact ⟨rfl, rfl, rfl, rfl, rfl⟩

/-- C10: `add_root_hints` mutates only the records map, leaving the change
counter, both target sets, the delegation ledger and the query queue
untouched; and `action_loop` on a store whose change counter is still zero
performs zero planning passes (the loop guard `0 != change_num` fails
immediately). -/
theorem c10_root_hints_frame (s : RecordDB) (hints : List (Name × IpAddr))
    (oracle : DnsOracle) (fuel : Nat) :
    ((s.add_root_hints hints).change_num = s.change_num ∧
     (s.add_root_hints hints).answer_targets = s.answer_targets ∧
     (s.add_root_hints hints).targets = s.targets ∧
     (s.add_root_hints hints).delegations = s.delegations ∧
     (s.add_root_hints hints).query_queue = s.query_queue) ∧
    (s.change_num = 0 → s.action_loop oracle fuel = some (s, 0)) := by
  refine ⟨add_root_hints_fields s hints, fun h => ?_⟩
  cases fuel with
  | zero => simp [RecordDB.action_loop, actionLoopAux, h]
  | succ n => simp [RecordDB.action_loop, actionLoopAux, h]

/-- Witness for C10: a store seeded only with root hints still has change
counter zero, so its action loop ends at once with zero planning passes. -/
theorem c10_witness :
    ((RecordDB.new.add_root_hints exHints).change_num = RecordDB.new.change_num ∧
     (RecordDB.new.add_root_hints exHints).answer_targets = RecordDB.new.answer_targets ∧
     (RecordDB.new.add_root_hints exHints).targets = RecordDB.new.targets ∧
     (RecordDB.new.add_root_hints exHints).delegations = RecordDB.new.delegations ∧
     (RecordDB.new.add_root_hints exHints).query_queue = RecordDB.new.query_queue) ∧
    (RecordDB.new.add_root_hints exHints).action_loop oracleTimeout 3 =
      some (RecordDB.new.add_root_hints exHints, 0) := by
  have h := c10_root_hints_frame (RecordDB.new.add_root_hints exHints) exHints oracleTimeout 3
  exact ⟨(c10_root_hints_frame RecordDB.new exHints oracleTimeout 3).1, h.2 (by decide)⟩

/-! ### The chronological contribution lists -/

theorem foldl_append_shift {α β : Type} (h : α → List β) (l : List α) :
    ∀ a : List β, l.foldl (fun acc x => acc ++ h x) a =
      a ++ l.foldl (fun acc x => acc ++ h x) [] := by
  induction l with
  | nil => intro a; simp
  | cons x t ih =>
    intro a
    simp only [List.foldl_cons]
    rw [ih (a ++ h x), ih ([] ++ h x)]
    simp [List.append_assoc]

theorem accMap_cons {α β : Type} (h : α → List β) (x : α) (t : List α) :
    accMap h (x :: t) = h x ++ accMap h t := by
  unfold accMap
  simp only [List.foldl_cons]
  rw [foldl_append_shift]
  simp

theorem genApply_nil (st : RecordDB) : genApply [] st = st := rfl

theorem genApply_comp (ps1 ps2 : List Probe) (st : RecordDB) :
    genApply ps2 (genApply ps1 st) = genApply (ps1 ++ ps2) st := by
  simp [genApply, List.reverse_append, List.append_assoc, Nat.add_assoc]

theorem GenStep_foldlM {α : Type} (r : Records) (step : RecordDB → α → Option RecordDB)
    (h : α → List Probe) (l : List α)
    (hstep : ∀ x ∈ l, GenStep r (fun st => step st x) (h x)) :
    GenStep r (fun st => l.foldlM step st) (accMap h l) := by
  induction l with
  | nil =>
    intro st hst
    simp [List.foldlM, accMap, genApply_nil]
  | cons x t ih =>
    intro st hst
    have h1 : step st x = some (genApply (h x) st) := hstep x (List.mem_cons_self x t) st hst
    have h2 : List.foldlM step (genApply (h x) st) t =
        some (genApply (accMap h t) (genApply (h x) st)) :=
      ih (fun y hy => hstep y (List.mem_cons_of_mem x hy)) (genApply (h x) st) hst
    simp only [List.foldlM_cons]
    rw [h1]
    show List.foldlM step (genApply (h x) st) t = _
    rw [h2, genApply_comp, ← accMap_cons]

/-! ### Success and typing of get_record_set -/

theorem foldlM_isSome {α β : Type} (step : β → α → Option β) (l : List α)
    (h : ∀ acc x, x ∈ l → (step acc x).isSome) : ∀ acc, (l.foldlM step acc).isSome := by
  induction l with
  | nil => intro acc; rfl
  | cons x t ih =>
    intro acc
    obtain ⟨b, hb⟩ := Option.isSome_iff_exists.mp (h acc x (List.mem_cons_self x t))
    rw [List.foldlM_cons, hb]
    exact ih (fun acc2 y hy => h acc2 y (List.mem_cons_of_mem x hy)) b

theorem foldlM_pred {α β : Type} (P : β → Prop) (step : β → α → Option β) (l : List α)
    (h : ∀ acc x b, x ∈ l → P acc → step acc x = some b → P b) :
    ∀ acc b, P acc → l.foldlM step acc = some b → P b := by
  induction l with
  | nil =>
    intro acc b hp he
    rw [List.foldlM_nil] at he
    cases he
    exact hp
  | cons x t ih =>
    intro acc b hp he
    rw [List.foldlM_cons] at he
    cases hs : step acc x with
    | none => rw [hs] at he; exact Option.noConfusion he
    | some b1 =>
      rw [hs] at he
      exact ih (fun a y c hy => h a y c (List.mem_cons_of_mem x hy)) b1 b
        (h acc x b1 (List.mem_cons_self x t) hp hs) he

theorem hashable_of_typed {d : RData} {t : RecordType} (h : toRecordType d = t)
    (ht : ∀ c, t ≠ RecordType.Unknown c) : hashable d = true := by
  cases d <;> first
    | rfl
    | exact absurd h.symm (ht _)

theorem getRecordSetR_isSome (r : Records) (n : Name) (t : RecordType)
    (ht : ∀ c, t ≠ RecordType.Unknown c) : (getRecordSetR r n t).isSome := by
  unfold getRecordSetR
  cases lookupA r n with
  | none => rfl
  | some servers =>
    apply foldlM_isSome
    intro acc se _
    obtain ⟨k, e⟩ := se
    cases e with
    | Entries items =>
      apply foldlM_isSome
      intro acc2 d _
      by_cases htd : toRecordType d = t
      · simp [htd, insertHash, hashable_of_typed htd ht]
      · simp [htd]
    | NoEntry => rfl
    | TimeOut => rfl

theorem getRecordSetR_types {r : Records} {n : Name} {t : RecordType} {l : List RData}
    (h : getRecordSetR r n t = some l) : ∀ d ∈ l, toRecordType d = t := by
  unfold getRecordSetR at h
  cases hl : lookupA r n with
  | none =>
    rw [hl] at h
    cases h
    simp
  | some servers =>
    rw [hl] at h
    refine foldlM_pred (fun acc => ∀ d ∈ acc, toRecordType d = t) _ servers ?_ [] l (by simp) h
    intro acc se b _ hacc hstep
    obtain ⟨k, e⟩ := se
    cases e with
    | Entries items =>
      refine foldlM_pred (fun acc2 => ∀ d ∈ acc2, toRecordType d = t) _ items ?_ acc b hacc hstep
      intro acc2 d b2 _ hacc2 hstep2
      by_cases htd : toRecordType d = t
      · rw [if_pos htd] at hstep2
        unfold insertHash at hstep2
        by_cases hh : hashable d = true
        · rw [if_pos hh] at hstep2
          cases hstep2
          by_cases hmem : d ∈ acc2
          · simpa [hmem] using hacc2
          · intro d2 hd2
            rw [if_neg hmem] at hd2
            rcases List.mem_append.mp hd2 with h2 | h2
            · exact hacc2 d2 h2
            · rw [List.mem_singleton.mp h2, htd]
        · rw [if_neg hh] at hstep2
          exact Option.noConfusion hstep2
      · rw [if_neg htd] at hstep2
        cases hstep2
        exact hacc2
    | NoEntry => cases hstep; exact hacc
    | TimeOut => cases hstep; exact hacc

/-! ### Characterization of generate_queries -/

theorem typed_A_eq {d : RData} (h : toRecordType d = RecordType.A) : ∃ a, d = RData.A a := by
  cases d <;> simp_all [toRecordType]

theorem typed_NS_eq {d : RData} (h : toRecordType d = RecordType.NS) :
    ∃ nm, d = RData.NS nm := by
  cases d <;> simp_all [toRecordType]

theorem genStep_pushOne (r : Records) (name : Name) (rtype : RecordType) (zone : Name)
    (ipRd : RData) (h : toRecordType ipRd = RecordType.A) :
    GenStep r
      (fun st2 => (to_ip_addr ipRd).map (fun ip => pushProbe st2 (name, rtype, ip, some zone)))
      (probeOfIp name rtype zone ipRd) := by
  obtain ⟨a, rfl⟩ := typed_A_eq h
  intro st _
  rfl

theorem genPushAll_genStep (r : Records) (name : Name) (rtype : RecordType) (zone : Name)
    (ns_ips : List RData) (h : ∀ d ∈ ns_ips, toRecordType d = RecordType.A) :
    GenStep r (genPushAll name rtype zone ns_ips) (ipProbes name rtype zone ns_ips) :=
  GenStep_foldlM r _ (probeOfIp name rtype zone) ns_ips
    (fun x hx => genStep_pushOne r name rtype zone x (h x hx))

theorem genStep_checkOne (r : Records) (name : Name) (rtype : RecordType) (zone : Name)
    (name_records : ServerMap) (ns_ips : List RData) (ipRd : RData)
    (hd : toRecordType ipRd = RecordType.A)
    (hall : ∀ d ∈ ns_ips, toRecordType d = RecordType.A) :
    GenStep r
      (fun st2 => (to_ip_addr ipRd).bind (fun ip =>
        if (lookupA name_records (RServer.ofIp ip)).isSome then some st2
        else genPushAll name rtype zone ns_ips st2))
      (checkProbe name rtype zone name_records ns_ips ipRd) := by
  obtain ⟨a, rfl⟩ := typed_A_eq hd
  intro st hst
  show (if (lookupA name_records (RServer.ofIp (IpAddr.v4 a))).isSome then some st
      else genPushAll name rtype zone ns_ips st) = _
  by_cases hk : (lookupA name_records (RServer.ofIp (IpAddr.v4 a))).isSome
  · rw [if_pos hk]
    have hred : checkProbe name rtype zone name_records ns_ips (RData.A a) = [] := by
      simp [checkProbe, to_ip_addr, hk]
    rw [hred, genApply_nil]
  · rw [if_neg hk]
    have hred : checkProbe name rtype zone name_records ns_ips (RData.A a) =
        ipProbes name rtype zone ns_ips := by
      simp [checkProbe, to_ip_addr, hk]
    rw [hred]
    exact genPushAll_genStep r name rtype zone ns_ips hall st hst

theorem genIpLoop_genStep (r : Records) (name : Name) (rtype : RecordType) (zone : Name)
    (name_records : ServerMap) (ns_ips : List RData)
    (h : ∀ d ∈ ns_ips, toRecordType d = RecordType.A) :
    GenStep r (genIpLoop name rtype zone name_records ns_ips)
      (accMap (checkProbe name rtype zone name_records ns_ips) ns_ips) :=
  GenStep_foldlM r _ (checkProbe name rtype zone name_records ns_ips) ns_ips
    (fun x hx => genStep_checkOne r name rtype zone name_records ns_ips x (h x hx) h)

theorem genStep_nsOne (r : Records) (name : Name) (rtype : RecordType) (zone : Name)
    (name_records : ServerMap) (nsRd : RData) (hns : toRecordType nsRd = RecordType.NS) :
    GenStep r
      (fun st1 => (as_ns nsRd).bind (fun ns =>
        (getRecordSetR st1.records ns RecordType.A).bind (fun ns_ips =>
          genIpLoop name rtype zone name_records ns_ips st1)))
      (nsProbes r name rtype zone name_records nsRd) := by
  obtain ⟨nm, rfl⟩ := typed_NS_eq hns
  intro st hst
  obtain ⟨ns_ips, hips⟩ := Option.isSome_iff_exists.mp
    (getRecordSetR_isSome r nm RecordType.A (fun c => by simp))
  have htypes := getRecordSetR_types hips
  show (getRecordSetR st.records nm RecordType.A).bind
      (fun ns_ips => genIpLoop name rtype zone name_records ns_ips st) = _
  rw [hst, hips]
  show genIpLoop name rtype zone name_records ns_ips st = _
  rw [genIpLoop_genStep r name rtype zone name_records ns_ips htypes st hst]
  have hred : nsProbes r name rtype zone name_records (RData.NS nm) =
      accMap (checkProbe name rtype zone name_records ns_ips) ns_ips := by
    simp [nsProbes, as_ns, hips]
  rw [hred]

theorem genNsLoop_genStep (r : Records) (name : Name) (rtype : RecordType) (zone : Name)
    (name_records : ServerMap) (zone_ns : List RData)
    (h : ∀ d ∈ zone_ns, toRecordType d = RecordType.NS) :
    GenStep r (genNsLoop name rtype zone name_records zone_ns)
      (accMap (nsProbes r name rtype zone name_records) zone_ns) :=
  GenStep_foldlM r _ (nsProbes r name rtype zone name_records) zone_ns
    (fun x hx => genStep_nsOne r name rtype zone name_records x (h x hx))

theorem genTarget_genStep (r : Records) (t : Name × RecordType × Name) :
    GenStep r (fun st => genTarget st t) (targetProbes r t) := by
  intro st hst
  obtain ⟨zone_ns, hzns⟩ := Option.isSome_iff_exists.mp
    (getRecordSetR_isSome r t.2.2 RecordType.NS (fun c => by simp))
  have htypes := getRecordSetR_types hzns
  show (getRecordSetR st.records t.2.2 RecordType.NS).bind
      (fun zone_ns => genNsLoop t.1 t.2.1 t.2.2 (getRecordsR st.records t.1) zone_ns st) = _
  rw [hst, hzns]
  show genNsLoop t.1 t.2.1 t.2.2 (getRecordsR r t.1) zone_ns st = _
  rw [genNsLoop_genStep r t.1 t.2.1 t.2.2 (getRecordsR r t.1) zone_ns htypes st hst]
  have hred : targetProbes r t =
      accMap (nsProbes r t.1 t.2.1 t.2.2 (getRecordsR r t.1)) zone_ns := by
    simp [targetProbes, hzns]
  rw [hred]

/-- The planner in one equation: `generate_queries` always succeeds and its
whole effect is to push the probes of `plannedProbes` (front-pushed in
chronological order, so the queue gains their reverse) and to bump the
counter once per probe.  In particular the pass reads only `records` and
`targets` and mutates only `query_queue` and `change_num`. -/
theorem generate_queries_spec (s : RecordDB) :
    s.generate_queries = some (genApply (plannedProbes s.records s.targets) s) := by
  unfold RecordDB.generate_queries plannedProbes
  exact GenStep_foldlM s.records genTarget (targetProbes s.records) s.targets
    (fun t _ => genTarget_genStep s.records t) s rfl


/-! ### The executor drains the queue front-first -/

theorem foldl_proj {α β γ : Type} (g : γ → α → γ) (m : γ → β) (l : List α)
    (h : ∀ st x, m (g st x) = m st) : ∀ st, m (l.foldl g st) = m st := by
  induction l with
  | nil => intro st; rfl
  | cons x t ih =>
    intro st
    simp only [List.foldl_cons]
    rw [ih (g st x), h st x]

theorem addNsRecord_queue (name : Name) (rtype : RecordType) (ip : IpAddr)
    (zone : Option Name) (st : RecordDB) (rec : Record) :
    (addNsRecord name rtype ip zone st rec).query_queue = st.query_queue := by
  unfold addNsRecord
  split <;> dsimp only [] <;> split <;> rfl

theorem addMsg_queue (name : Name) (rtype : RecordType) (ip : IpAddr) (zone : Option Name)
    (acc : RecordDB × Bool) (msg : Message) :
    (addMsg name rtype ip zone acc msg).1.query_queue = acc.1.query_queue := by
  unfold addMsg
  show (msg.name_servers.foldl (addNsRecord name rtype ip zone) _).query_queue = _
  rw [foldl_proj (addNsRecord name rtype ip zone) RecordDB.query_queue msg.name_servers
    (fun st r => addNsRecord_queue name rtype ip zone st r)]
  rw [foldl_proj (fun st r => RecordDB.add_record st r ip) RecordDB.query_queue msg.additionals
    (fun st r => rfl)]
  rw [foldl_proj (fun st r => RecordDB.add_record st r ip) RecordDB.query_queue msg.answers
    (fun st r => rfl)]

theorem query_record_queue (st : RecordDB) (ip : IpAddr) (name : Name) (rtype : RecordType)
    (zone : Option Name) (res : DnsResult) (st' : RecordDB)
    (h : query_record st ip name rtype zone res = some st') :
    st'.query_queue = st.query_queue := by
  cases res with
  | timeout => cases h; rfl
  | failure => exact Option.noConfusion h
  | response msgs =>
    have hq : (msgs.foldl (addMsg name rtype ip zone) (st, false)).1.query_queue =
        st.query_queue :=
      foldl_proj (addMsg name rtype ip zone) (fun p => p.1.query_queue) msgs
        (fun acc msg => addMsg_queue name rtype ip zone acc msg) (st, false)
    have hexp : query_record st ip name rtype zone (DnsResult.response msgs) =
        (if (msgs.foldl (addMsg name rtype ip zone) (st, false)).2 then
          some (msgs.foldl (addMsg name rtype ip zone) (st, false)).1
        else
          some ((msgs.foldl (addMsg name rtype ip zone) (st, false)).1.add_rentry name
            REntry.NoEntry ip)) := rfl
    rw [hexp] at h
    by_cases hb : (msgs.foldl (addMsg name rtype ip zone) (st, false)).2 = true
    · rw [if_pos hb] at h
      cases h
      exact hq
    · rw [if_neg hb] at h
      cases h
      exact hq

theorem performQueriesFuel_spec (oracle : DnsOracle) :
    ∀ (fuel : Nat) (st st' : RecordDB) (ds : List Probe),
      performQueriesFuel oracle fuel st = some (st', ds) →
      ds = st.query_queue ∧ st'.query_queue = [] := by
  intro fuel
  induction fuel with
  | zero =>
    intro st st' ds h
    unfold performQueriesFuel at h
    cases hq : st.query_queue with
    | nil => rw [hq] at h; cases h; exact ⟨rfl, hq⟩
    | cons p rest => rw [hq] at h; exact Option.noConfusion h
  | succ n ih =>
    intro st st' ds h
    unfold performQueriesFuel at h
    cases hq : st.query_queue with
    | nil => rw [hq] at h; cases h; exact ⟨rfl, hq⟩
    | cons p rest =>
      rw [hq] at h
      dsimp only [] at h
      cases hqr : query_record { st with query_queue := rest } p.2.2.1 p.1 p.2.1 p.2.2.2
          (oracle p) with
      | none => rw [hqr] at h; exact Option.noConfusion h
      | some st1 =>
        rw [hqr] at h
        dsimp only [] at h
        cases hp : performQueriesFuel oracle n st1 with
        | none => rw [hp] at h; exact Option.noConfusion h
        | some pr =>
          obtain ⟨st2, ds2⟩ := pr
          obtain ⟨hds2, hst2⟩ := ih st1 st2 ds2 hp
          have hq1 : st1.query_queue = rest := query_record_queue _ _ _ _ _ _ _ hqr
          rw [hp] at h
          dsimp only [] at h
          cases h
          exact ⟨by rw [hds2, hq1], hst2⟩

theorem perform_queries_dispatch (oracle : DnsOracle) (s st' : RecordDB) (ds : List Probe)
    (h : RecordDB.perform_queries oracle s = some (st', ds)) :
    ds = s.query_queue ∧ st'.query_queue = [] :=
  performQueriesFuel_spec oracle s.query_queue.length s st' ds h

/-! ### C1: dispatch order versus enqueue order -/

/-- C1 counterexample: on the concrete store `exC1` the planner enqueues four
probes whose chronological ip order is `[1, 2, 1, 2]`, but the first probe
dispatched by `perform_queries` is the LAST one enqueued (ip 2), because
`generate_queries` pushes at the deque front that `perform_queries` pops
from.  The claimed FIFO behaviour (first enqueued, first dispatched) is
refuted. -/
theorem c1_counterexample :
    ¬ (∀ (s s1 s2 : RecordDB) (oracle : DnsOracle) (ds : List Probe),
        s.generate_queries = some s1 → s.query_queue = [] →
        RecordDB.perform_queries oracle s1 = some (s2, ds) →
        ds.head? = (plannedProbes s.records s.targets).head?) := by
  intro hclaim
  have h := hclaim exC1 exC1s1 exC1run.1 oracleTimeout exC1run.2 rfl rfl rfl
  revert h
  decide

/-- C1 amended: probes are drained in LIFO order.  A planning pass on an
empty queue enqueues `plannedProbes` chronologically by front-pushes, and
`perform_queries` pops from the front, so the dispatch order is exactly the
reverse of the enqueue order: the probe enqueued first is dispatched last. -/
theorem c1_lifo_dispatch (s s1 s2 : RecordDB) (oracle : DnsOracle) (ds : List Probe)
    (hgen : s.generate_queries = some s1) (hq : s.query_queue = [])
    (hperf : RecordDB.perform_queries oracle s1 = some (s2, ds)) :
    ds = (plannedProbes s.records s.targets).reverse := by
  have e1 := generate_queries_spec s
  rw [hgen] at e1
  obtain rfl : s1 = genApply (plannedProbes s.records s.targets) s := Option.some.inj e1
  have hd := (perform_queries_dispatch oracle _ s2 ds hperf).1
  rw [hd]
  show (plannedProbes s.records s.targets).reverse ++ s.query_queue = _
  rw [hq, List.append_nil]

/-- Witness for C1 (amended) at the concrete store. -/
theorem c1_witness : exC1run.2 = (plannedProbes exC1.records exC1.targets).reverse :=
  c1_lifo_dispatch exC1 exC1s1 exC1run.1 oracleTimeout exC1run.2 rfl rfl rfl

/-! ### C2: two consecutive planning passes -/

/-- C2 counterexample: at the concrete store `exC1`, a second
`generate_queries` with no intervening ingest re-enqueues all four probes
(the queue grows from four to eight entries) and bumps the change counter
again, because the planner's already-answered check consults the stored
records, not the queue.  The claimed absence of additional enqueues and of a
counter bump is refuted. -/
theorem c2_counterexample :
    ¬ (∀ (s s1 s2 : RecordDB), s.generate_queries = some s1 →
        s1.generate_queries = some s2 →
        s2.query_queue = s1.query_queue ∧ s2.change_num = s1.change_num) := by
  intro hclaim
  have h := hclaim exC1 exC1s1 exC2s2 rfl rfl
  revert h
  decide

/-- C2 amended: the planner is a pure function of `records` and `targets`
(which it never mutates), so a second pass with no intervening ingest
enqueues exactly the same probe sequence again and bumps the counter once
per re-enqueued probe; no additional enqueues happen only when the first
pass enqueued nothing. -/
theorem c2_replan (s s1 s2 : RecordDB)
    (h1 : s.generate_queries = some s1) (h2 : s1.generate_queries = some s2) :
    s2.query_queue = (plannedProbes s.records s.targets).reverse ++ s1.query_queue ∧
    s2.change_num = s1.change_num + (plannedProbes s.records s.targets).length := by
  have e1 := generate_queries_spec s
  rw [h1] at e1
  obtain rfl : s1 = genApply (plannedProbes s.records s.targets) s := Option.some.inj e1
  have e2 := generate_queries_spec (genApply (plannedProbes s.records s.targets) s)
  rw [h2] at e2
  obtain rfl : s2 = _ := Option.some.inj e2
  exact ⟨rfl, rfl⟩

/-- Witness for C2 (amended) at the concrete store. -/
theorem c2_witness :
    exC2s2.query_queue =
      (plannedProbes exC1.records exC1.targets).reverse ++ exC1s1.query_queue ∧
    exC2s2.change_num = exC1s1.change_num + (plannedProbes exC1.records exC1.targets).length :=
  c2_replan exC1 exC1s1 exC2s2 rfl rfl

/-! ### C5: the change counter never decreases -/

theorem addNsRecord_change (name : Name) (rtype : RecordType) (ip : IpAddr)
    (zone : Option Name) (st : RecordDB) (rec : Record) :
    st.change_num ≤ (addNsRecord name rtype ip zone st rec).change_num := by
  unfold addNsRecord
  split <;> dsimp only [] <;> split <;>
    dsimp only [RecordDB.add_record, RecordDB.add_delegation, RecordDB.add_target] <;> omega

theorem addMsg_change (name : Name) (rtype : RecordType) (ip : IpAddr) (zone : Option Name)
    (acc : RecordDB × Bool) (msg : Message) :
    acc.1.change_num ≤ (addMsg name rtype ip zone acc msg).1.change_num := by
  unfold addMsg
  show acc.1.change_num ≤ (msg.name_servers.foldl (addNsRecord name rtype ip zone)
    (msg.additionals.foldl (fun st r => RecordDB.add_record st r ip)
      (msg.answers.foldl (fun st r => RecordDB.add_record st r ip) acc.1))).change_num
  refine Nat.le_trans ?_ (foldl_le_measure (addNsRecord name rtype ip zone)
    RecordDB.change_num msg.name_servers
    (fun st r => addNsRecord_change name rtype ip zone st r) _)
  refine Nat.le_trans ?_ (foldl_le_measure (fun st r => RecordDB.add_record st r ip)
    RecordDB.change_num msg.additionals (fun st r => Nat.le_succ _) _)
  exact foldl_le_measure (fun st r => RecordDB.add_record st r ip) RecordDB.change_num
    msg.answers (fun st r => Nat.le_succ _) acc.1

theorem query_record_change (st : RecordDB) (ip : IpAddr) (name : Name) (rtype : RecordType)
    (zone : Option Name) (res : DnsResult) (st' : RecordDB)
    (h : query_record st ip name rtype zone res = some st') :
    st.change_num ≤ st'.change_num := by
  cases res with
  | timeout => cases h; exact Nat.le_succ _
  | failure => exact Option.noConfusion h
  | response msgs =>
    have hm : st.change_num ≤
        (msgs.foldl (addMsg name rtype ip zone) (st, false)).1.change_num :=
      foldl_le_measure (addMsg name rtype ip zone) (fun p => p.1.change_num) msgs
        (fun acc msg => addMsg_change name rtype ip zone acc msg) (st, false)
    have hexp : query_record st ip name rtype zone (DnsResult.response msgs) =
        (if (msgs.foldl (addMsg name rtype ip zone) (st, false)).2 then
          some (msgs.foldl (addMsg name rtype ip zone) (st, false)).1
        else
          some ((msgs.foldl (addMsg name rtype ip zone) (st, false)).1.add_rentry name
            REntry.NoEntry ip)) := rfl
    rw [hexp] at h
    by_cases hb : (msgs.foldl (addMsg name rtype ip zone) (st, false)).2 = true
    · rw [if_pos hb] at h
      cases h
      exact hm
    · rw [if_neg hb] at h
      cases h
      exact Nat.le_trans hm (Nat.le_succ _)

theorem performQueriesFuel_change (oracle : DnsOracle) :
    ∀ (fuel : Nat) (st st' : RecordDB) (ds : List Probe),
      performQueriesFuel oracle fuel st = some (st', ds) →
      st.change_num ≤ st'.change_num := by
  intro fuel
  induction fuel with
  | zero =>
    intro st st' ds h
    unfold performQueriesFuel at h
    cases hq : st.query_queue with
    | nil => rw [hq] at h; cases h; exact Nat.le_refl _
    | cons p rest => rw [hq] at h; exact Option.noConfusion h
  | succ n ih =>
    intro st st' ds h
    unfold performQueriesFuel at h
    cases hq : st.query_queue with
    | nil => rw [hq] at h; cases h; exact Nat.le_refl _
    | cons p rest =>
      rw [hq] at h
      dsimp only [] at h
      cases hqr : query_record { st with query_queue := rest } p.2.2.1 p.1 p.2.1 p.2.2.2
          (oracle p) with
      | none => rw [hqr] at h; exact Option.noConfusion h
      | some st1 =>
        rw [hqr] at h
        dsimp only [] at h
        cases hp : performQueriesFuel oracle n st1 with
        | none => rw [hp] at h; exact Option.noConfusion h
        | some pr =>
          obtain ⟨st2, ds2⟩ := pr
          have h1 : st.change_num ≤ st1.change_num :=
            query_record_change { st with query_queue := rest } _ _ _ _ _ _ hqr
          have h2 : st1.change_num ≤ st2.change_num := ih st1 st2 ds2 hp
          rw [hp] at h
          dsimp only [] at h
          cases h
          exact Nat.le_trans h1 h2

/-- C5: no public operation of `RecordDB` (seeding, record or rentry or
delegation or target insertion, planning, or executing queued probes with
any transport outcomes) ever decreases the change counter. -/
theorem c5_change_monotone (s s' : RecordDB) (op : Op) (h : applyOp s op = some s') :
    s.change_num ≤ s'.change_num := by
  cases op with
  | rootHints hints =>
    cases h
    exact Nat.le_of_eq (add_root_hints_fields s hints).1.symm
  | record rec ip => cases h; exact Nat.le_succ _
  | rentry n re ip => cases h; exact Nat.le_succ _
  | delegation n z az ans => cases h; exact Nat.le_succ _
  | answerTarget n t => cases h; exact Nat.le_succ _
  | target n t z => cases h; exact Nat.le_succ _
  | planQueries =>
    have e := generate_queries_spec s
    have h2 : s.generate_queries = some s' := h
    rw [h2] at e
    obtain rfl : s' = genApply (plannedProbes s.records s.targets) s := Option.some.inj e
    exact Nat.le_add_right _ _
  | runQueries oracle =>
    have h2 : (RecordDB.perform_queries oracle s).map (fun p => p.1) = some s' := h
    cases hp : RecordDB.perform_queries oracle s with
    | none => rw [hp] at h2; exact Option.noConfusion h2
    | some pr =>
      obtain ⟨st2, ds⟩ := pr
      rw [hp] at h2
      cases h2
      exact performQueriesFuel_change oracle _ s st2 ds hp

/-- Witness for C5: a concrete operation on the empty store. -/
theorem c5_witness :
    RecordDB.new.change_num ≤ (RecordDB.new.add_record exRecA (IpAddr.v4 5)).change_num :=
  c5_change_monotone RecordDB.new (RecordDB.new.add_record exRecA (IpAddr.v4 5))
    (Op.record exRecA (IpAddr.v4 5)) rfl

/-! ### C4: Hint slots always hold Entries -/

theorem RServer.ofIp_ne_hint (ip : IpAddr) : RServer.ofIp ip ≠ RServer.Hint := by
  cases ip <;> simp [RServer.ofIp]

theorem entryUpsert_forall {α β : Type} [DecidableEq α] (Q : α × β → Prop)
    (m : List (α × β)) (k : α) (f : β → β) (d : β)
    (hm : ∀ se ∈ m, Q se) (hf : ∀ v, Q (k, v) → Q (k, f v)) (hd : Q (k, d)) :
    ∀ se ∈ entryUpsert m k f d, Q se := by
  induction m with
  | nil =>
    intro se hse
    rw [List.mem_singleton.mp hse]
    exact hd
  | cons p rest ih =>
    obtain ⟨k', v⟩ := p
    intro se hse
    by_cases hk : k = k'
    · subst hk
      rw [show entryUpsert ((k, v) :: rest) k f d = (k, f v) :: rest by simp [entryUpsert]]
        at hse
      rcases List.mem_cons.mp hse with h | h
      · rw [h]
        exact hf v (hm (k, v) (List.mem_cons_self _ _))
      · exact hm se (List.mem_cons_of_mem _ h)
    · rw [show entryUpsert ((k', v) :: rest) k f d = (k', v) :: entryUpsert rest k f d by
        simp [entryUpsert, hk]] at hse
      rcases List.mem_cons.mp hse with h | h
      · rw [h]
        exact hm (k', v) (List.mem_cons_self _ _)
      · exact ih (fun q hq => hm q (List.mem_cons_of_mem _ hq)) se h

theorem hintOk_upsert_ip (r : Records) (nm : Name) (ip : IpAddr) (f : REntry → REntry)
    (d : REntry) (h : HintOk r) :
    HintOk (entryUpsert r nm (fun m => entryUpsert m (RServer.ofIp ip) f d)
      (entryUpsert [] (RServer.ofIp ip) f d)) := by
  refine entryUpsert_forall (fun p => ∀ se ∈ p.2, QHint se) r nm _ _ h ?_ ?_
  · intro m hm
    exact entryUpsert_forall QHint m (RServer.ofIp ip) f d hm
      (fun v _ hk => absurd hk (RServer.ofIp_ne_hint ip))
      (fun hk => absurd hk (RServer.ofIp_ne_hint ip))
  · exact entryUpsert_forall QHint [] (RServer.ofIp ip) f d (by intro se hse; cases hse)
      (fun v _ hk => absurd hk (RServer.ofIp_ne_hint ip))
      (fun hk => absurd hk (RServer.ofIp_ne_hint ip))

theorem hintOk_upsert_hint (r : Records) (nm : Name) (rd : RData) (h : HintOk r) :
    HintOk (entryUpsert r nm
      (fun m => entryUpsert m RServer.Hint (hintModify rd) (REntry.Entries [rd]))
      (entryUpsert [] RServer.Hint (hintModify rd) (REntry.Entries [rd]))) := by
  refine entryUpsert_forall (fun p => ∀ se ∈ p.2, QHint se) r nm _ _ h ?_ ?_
  · intro m hm
    refine entryUpsert_forall QHint m RServer.Hint (hintModify rd) (REntry.Entries [rd]) hm
      ?_ (fun _ => rfl)
    intro v _ _
    cases v <;> rfl
  · refine entryUpsert_forall QHint [] RServer.Hint (hintModify rd) (REntry.Entries [rd])
      (by intro se hse; cases hse) ?_ (fun _ => rfl)
    intro v _ _
    cases v <;> rfl

theorem foldl_pres_prop {α γ : Type} (P : γ → Prop) (g : γ → α → γ) (l : List α)
    (h : ∀ st x, P st → P (g st x)) : ∀ st, P st → P (l.foldl g st) := by
  induction l with
  | nil => intro st hp; exact hp
  | cons x t ih =>
    intro st hp
    simp only [List.foldl_cons]
    exact ih (g st x) (h st x hp)

theorem hintOk_add_record (s : RecordDB) (rec : Record) (ip : IpAddr)
    (h : HintOk s.records) : HintOk (s.add_record rec ip).records :=
  hintOk_upsert_ip s.records rec.name ip _ _ h

theorem hintOk_add_rentry (s : RecordDB) (n : Name) (re : REntry) (ip : IpAddr)
    (h : HintOk s.records) : HintOk (s.add_rentry n re ip).records :=
  hintOk_upsert_ip s.records n ip _ _ h

theorem hintOk_add_root_hints (s : RecordDB) (hints : List (Name × IpAddr))
    (h : HintOk s.records) : HintOk (s.add_root_hints hints).records := by
  unfold RecordDB.add_root_hints
  refine foldl_pres_prop (fun st => HintOk st.records) _ hints ?_ s h
  intro st x hst
  exact hintOk_upsert_hint _ rootName (RData.NS x.1)
    (hintOk_upsert_hint st.records x.1 _ hst)

theorem hintOk_addNsRecord (name : Name) (rtype : RecordType) (ip : IpAddr)
    (zone : Option Name) (st : RecordDB) (rec : Record) (h : HintOk st.records) :
    HintOk (addNsRecord name rtype ip zone st rec).records := by
  unfold addNsRecord
  split <;> dsimp only [] <;> split <;> exact hintOk_add_record st rec ip h

theorem hintOk_addMsg (name : Name) (rtype : RecordType) (ip : IpAddr) (zone : Option Name)
    (acc : RecordDB × Bool) (msg : Message) (h : HintOk acc.1.records) :
    HintOk (addMsg name rtype ip zone acc msg).1.records := by
  unfold addMsg
  show HintOk (msg.name_servers.foldl (addNsRecord name rtype ip zone)
    (msg.additionals.foldl (fun st r => RecordDB.add_record st r ip)
      (msg.answers.foldl (fun st r => RecordDB.add_record st r ip) acc.1))).records
  refine foldl_pres_prop (fun st => HintOk st.records) _ msg.name_servers
    (fun st r hst => hintOk_addNsRecord name rtype ip zone st r hst) _ ?_
  refine foldl_pres_prop (fun st => HintOk st.records) _ msg.additionals
    (fun st r hst => hintOk_add_record st r ip hst) _ ?_
  exact foldl_pres_prop (fun st => HintOk st.records) _ msg.answers
    (fun st r hst => hintOk_add_record st r ip hst) acc.1 h

theorem hintOk_query_record (st : RecordDB) (ip : IpAddr) (name : Name) (rtype : RecordType)
    (zone : Option Name) (res : DnsResult) (st' : RecordDB)
    (hq : query_record st ip name rtype zone res = some st') (h : HintOk st.records) :
    HintOk st'.records := by
  cases res with
  | timeout => cases hq; exact hintOk_add_rentry st name REntry.TimeOut ip h
  | failure => exact Option.noConfusion hq
  | response msgs =>
    have hm : HintOk (msgs.foldl (addMsg name rtype ip zone) (st, false)).1.records :=
      foldl_pres_prop (fun p => HintOk p.1.records) (addMsg name rtype ip zone) msgs
        (fun acc m hacc => hintOk_addMsg name rtype ip zone acc m hacc) (st, false) h
    have hexp : query_record st ip name rtype zone (DnsResult.response msgs) =
        (if (msgs.foldl (addMsg name rtype ip zone) (st, false)).2 then
          some (msgs.foldl (addMsg name rtype ip zone) (st, false)).1
        else
          some ((msgs.foldl (addMsg name rtype ip zone) (st, false)).1.add_rentry name
            REntry.NoEntry ip)) := rfl
    rw [hexp] at hq
    by_cases hb : (msgs.foldl (addMsg name rtype ip zone) (st, false)).2 = true
    · rw [if_pos hb] at hq
      cases hq
      exact hm
    · rw [if_neg hb] at hq
      cases hq
      exact hintOk_add_rentry _ name REntry.NoEntry ip hm

theorem hintOk_performQueriesFuel (oracle : DnsOracle) :
    ∀ (fuel : Nat) (st st' : RecordDB) (ds : List Probe),
      performQueriesFuel oracle fuel st = some (st', ds) → HintOk st.records →
      HintOk st'.records := by
  intro fuel
  induction fuel with
  | zero =>
    intro st st' ds h hok
    unfold performQueriesFuel at h
    cases hq : st.query_queue with
    | nil => rw [hq] at h; cases h; exact hok
    | cons p rest => rw [hq] at h; exact Option.noConfusion h
  | succ n ih =>
    intro st st' ds h hok
    unfold performQueriesFuel at h
    cases hq : st.query_queue with
    | nil => rw [hq] at h; cases h; exact hok
    | cons p rest =>
      rw [hq] at h
      dsimp only [] at h
      cases hqr : query_record { st with query_queue := rest } p.2.2.1 p.1 p.2.1 p.2.2.2
          (oracle p) with
      | none => rw [hqr] at h; exact Option.noConfusion h
      | some st1 =>
        rw [hqr] at h
        dsimp only [] at h
        cases hp : performQueriesFuel oracle n st1 with
        | none => rw [hp] at h; exact Option.noConfusion h
        | some pr =>
          obtain ⟨st2, ds2⟩ := pr
          have h1 : HintOk st1.records :=
            hintOk_query_record { st with query_queue := rest } _ _ _ _ _ _ hqr hok
          have h2 : HintOk st2.records := ih st1 st2 ds2 hp h1
          rw [hp] at h
          dsimp only [] at h
          cases h
          exact h2

/-- C4: in every store reachable from `RecordDB::new` by any sequence of
public operations — seeding root hints, adding records, rentries,
delegations, answer targets or targets, planning, and executing queued
probes under arbitrary transport outcomes — every `(name, Hint)` slot holds
`Entries`, never `TimeOut` or `NoEntry`. -/
theorem c4_hint_entries (s : RecordDB) (h : Reachable s) : HintOk s.records := by
  induction h with
  | base => intro p hp; cases hp
  | step op hr happ ih =>
    rename_i s0 s1
    cases op with
    | rootHints hints => cases happ; exact hintOk_add_root_hints _ hints ih
    | record rec ip => cases happ; exact hintOk_add_record _ rec ip ih
    | rentry n re ip => cases happ; exact hintOk_add_rentry _ n re ip ih
    | delegation n z az ans => cases happ; exact ih
    | answerTarget n t => cases happ; exact ih
    | target n t z => cases happ; exact ih
    | planQueries =>
      have e := generate_queries_spec s0
      have h2 : s0.generate_queries = some s1 := happ
      rw [h2] at e
      rw [Option.some.inj e]
      exact ih
    | runQueries oracle =>
      have h2 : (RecordDB.perform_queries oracle s0).map (fun p => p.1) = some s1 := happ
      cases hp : RecordDB.perform_queries oracle s0 with
      | none => rw [hp] at h2; exact Option.noConfusion h2
      | some pr =>
        obtain ⟨st2, ds⟩ := pr
        rw [hp] at h2
        rw [← Option.some.inj h2]
        exact hintOk_performQueriesFuel oracle _ s0 st2 ds hp ih

/-- Witness for C4: a concrete reachable store (root hints plus one observed
record). -/
theorem c4_witness :
    HintOk ((RecordDB.new.add_root_hints exHints).add_record exRecA (IpAddr.v4 5)).records :=
  c4_hint_entries _ (Reachable.step (Op.record exRecA (IpAddr.v4 5))
    (Reachable.step (Op.rootHints exHints) Reachable.base rfl) rfl)

/-! ### C7 and C8: the dedup read path -/

theorem foldl_append_shift_of {α β : Type} (g : List β → α → List β) (h : α → List β)
    (hg : ∀ acc x, g acc x = acc ++ h x) (l : List α) :
    ∀ a, l.foldl g a = a ++ l.foldl g [] := by
  induction l with
  | nil => intro a; simp
  | cons x t ih =>
    intro a
    simp only [List.foldl_cons]
    rw [hg a x, hg [] x, ih (a ++ h x), ih ([] ++ h x)]
    simp [List.append_assoc]

theorem collectTyped_cons (se : RServer × REntry) (rest : ServerMap) (t : RecordType) :
    collectTyped (se :: rest) t = typedItems t se ++ collectTyped rest t := by
  have hg : ∀ (acc : List RData) (x : RServer × REntry),
      (match x.2 with
       | REntry.Entries items => acc ++ items.filter (fun d => decide (toRecordType d = t))
       | _ => acc) = acc ++ typedItems t x := by
    intro acc x
    cases hx : x.2 <;> simp [typedItems, hx]
  unfold collectTyped
  simp only [List.foldl_cons]
  rw [hg [] se, foldl_append_shift_of _ (typedItems t) hg rest]
  simp

theorem foldlM_append_option {α β : Type} (f : β → α → Option β) (l1 l2 : List α) :
    ∀ acc, (l1 ++ l2).foldlM f acc = (l1.foldlM f acc).bind (fun b => l2.foldlM f b) := by
  induction l1 with
  | nil => intro acc; rfl
  | cons x t ih =>
    intro acc
    simp only [List.cons_append, List.foldlM_cons]
    cases hx : f acc x with
    | none => rfl
    | some b =>
      show (t ++ l2).foldlM f b = _
      exact ih b

theorem itemsFold_eq (t : RecordType) (items : List RData) :
    ∀ acc : List RData,
      items.foldlM
        (fun acc2 d => if toRecordType d = t then insertHash acc2 d else some acc2) acc =
      (items.filter (fun d => decide (toRecordType d = t))).foldlM insertHash acc := by
  induction items with
  | nil => intro acc; rfl
  | cons d rest ih =>
    intro acc
    by_cases htd : toRecordType d = t
    · rw [List.filter_cons_of_pos (by simp [htd])]
      simp only [List.foldlM_cons, if_pos htd]
      cases hi : insertHash acc d with
      | none => rfl
      | some a2 =>
        show rest.foldlM _ a2 = _
        exact ih a2
    · rw [List.filter_cons_of_neg (by simp [htd])]
      simp only [List.foldlM_cons, if_neg htd]
      show rest.foldlM _ acc = _
      exact ih acc

theorem serversFold_eq (t : RecordType) (servers : ServerMap) :
    ∀ acc : List RData,
      servers.foldlM
        (fun acc se =>
          match se.2 with
          | REntry.Entries items =>
            items.foldlM
              (fun acc2 d => if toRecordType d = t then insertHash acc2 d else some acc2) acc
          | _ => some acc) acc =
      (collectTyped servers t).foldlM insertHash acc := by
  induction servers with
  | nil => intro acc; rfl
  | cons se rest ih =>
    intro acc
    rw [collectTyped_cons, foldlM_append_option]
    simp only [List.foldlM_cons]
    obtain ⟨k, e⟩ := se
    cases e with
    | Entries items =>
      show (items.foldlM
          (fun acc2 d => if toRecordType d = t then insertHash acc2 d else some acc2) acc).bind
          (fun b => rest.foldlM _ b) = _
      rw [itemsFold_eq t items acc]
      show _ = ((items.filter (fun d => decide (toRecordType d = t))).foldlM insertHash
        acc).bind (fun b => (collectTyped rest t).foldlM insertHash b)
      cases hf : (items.filter (fun d => decide (toRecordType d = t))).foldlM insertHash acc with
      | none => rfl
      | some b =>
        show rest.foldlM _ b = _
        exact ih b
    | NoEntry =>
      show rest.foldlM _ acc = _
      rw [ih acc]
      rfl
    | TimeOut =>
      show rest.foldlM _ acc = _
      rw [ih acc]
      rfl

theorem insertHash_fold_spec (l : List RData) :
    ∀ acc res : List RData, l.foldlM insertHash acc = some res →
      (∀ d, d ∈ res ↔ d ∈ acc ∨ d ∈ l) ∧ (acc.Nodup → res.Nodup) := by
  induction l with
  | nil =>
    intro acc res h
    rw [List.foldlM_nil] at h
    cases h
    exact ⟨fun d => by simp, id⟩
  | cons x t ih =>
    intro acc res h
    rw [List.foldlM_cons] at h
    unfold insertHash at h
    by_cases hh : hashable x = true
    · rw [if_pos hh] at h
      by_cases hm : x ∈ acc
      · rw [if_pos hm] at h
        have h2 : t.foldlM insertHash acc = some res := h
        obtain ⟨hmem, hnd⟩ := ih acc res h2
        refine ⟨fun d => ?_, hnd⟩
        rw [hmem d]
        constructor
        · rintro (h1 | h1)
          · exact Or.inl h1
          · exact Or.inr (List.mem_cons_of_mem _ h1)
        · rintro (h1 | h1)
          · exact Or.inl h1
          · rcases List.mem_cons.mp h1 with h2 | h2
            · rw [h2]; exact Or.inl hm
            · exact Or.inr h2
      · rw [if_neg hm] at h
        have h2 : t.foldlM insertHash (acc ++ [x]) = some res := h
        obtain ⟨hmem, hnd⟩ := ih (acc ++ [x]) res h2
        refine ⟨fun d => ?_, fun hna => hnd ?_⟩
        · rw [hmem d]
          simp [List.mem_append, List.mem_cons, or_assoc]
        · rw [List.nodup_append]
          refine ⟨hna, List.nodup_singleton x, ?_⟩
          intro a ha hax
          rw [List.mem_singleton.mp hax] at ha
          exact hm ha
    · rw [if_neg hh] at h
      exact Option.noConfusion h

theorem getRecordSetR_spec (r : Records) (n : Name) (t : RecordType) (l : List RData)
    (h : getRecordSetR r n t = some l) :
    (∀ d, d ∈ l ↔ d ∈ collectTyped (getRecordsR r n) t) ∧ l.Nodup := by
  unfold getRecordSetR at h
  cases hl : lookupA r n with
  | none =>
    rw [hl] at h
    cases h
    exact ⟨fun d => by simp [getRecordsR, hl, collectTyped], List.nodup_nil⟩
  | some servers =>
    rw [hl] at h
    dsimp only [] at h
    rw [serversFold_eq t servers []] at h
    obtain ⟨hmem, hnd⟩ := insertHash_fold_spec (collectTyped servers t) [] l h
    refine ⟨fun d => ?_, hnd List.nodup_nil⟩
    rw [hmem d]
    simp [getRecordsR, hl]

theorem collectTyped_mem (servers : ServerMap) (t : RecordType) (d : RData) :
    d ∈ collectTyped servers t ↔
      ∃ se ∈ servers, (∃ items, se.2 = REntry.Entries items ∧ d ∈ items) ∧
        toRecordType d = t := by
  induction servers with
  | nil => simp [collectTyped]
  | cons se rest ih =>
    rw [collectTyped_cons]
    simp only [List.mem_append, ih, List.mem_cons, exists_eq_or_imp]
    obtain ⟨k, e⟩ := se
    cases e with
    | Entries items => simp [typedItems, List.mem_filter]
    | NoEntry => simp [typedItems]
    | TimeOut => simp [typedItems]

/-- C7 counterexample: on a store holding an unknown-variant record (type
code 7) under `uName`, requesting that very type makes `get_record_set` hit
the unimplemented arm of the `RDataHash` hash (a panic, modelled `none`)
instead of returning the union, refuting the claim for stores containing an
unknown-variant record of the requested type. -/
theorem c7_counterexample :
    ¬ (∀ (s : RecordDB) (n : Name) (t : RecordType),
        ∃ l, s.get_record_set n t = some l ∧
          (∀ d, d ∈ l ↔
            (∃ se ∈ s.get_records n, ∃ items, se.2 = REntry.Entries items ∧ d ∈ items) ∧
              toRecordType d = t) ∧
          l.Nodup) := by
  intro hclaim
  obtain ⟨l, hl, _⟩ := hclaim exC7 uName (RecordType.Unknown 7)
  rw [show exC7.get_record_set uName (RecordType.Unknown 7) = none from rfl] at hl
  exact Option.noConfusion hl

/-- C7 amended: whenever `get_record_set` returns (that is, no stored
unknown-variant record of the requested type makes the dedup hash panic),
the returned list is exactly the union across all servers of the stored
`Entries` items of the requested type — sentinel slots contribute nothing —
and it holds no duplicates by RData equality. -/
theorem c7_record_set (s : RecordDB) (n : Name) (t : RecordType) (l : List RData)
    (h : s.get_record_set n t = some l) :
    (∀ d, d ∈ l ↔
      (∃ se ∈ s.get_records n, ∃ items, se.2 = REntry.Entries items ∧ d ∈ items) ∧
        toRecordType d = t) ∧
    l.Nodup := by
  obtain ⟨hmem, hnd⟩ := getRecordSetR_spec s.records n t l h
  refine ⟨fun d => ?_, hnd⟩
  rw [hmem d, collectTyped_mem]
  constructor
  · rintro ⟨se, hse, ⟨items, hits, hd⟩, ht⟩
    exact ⟨⟨se, hse, items, hits, hd⟩, ht⟩
  · rintro ⟨⟨se, hse, items, hits, hd⟩, ht⟩
    exact ⟨se, hse, ⟨items, hits, hd⟩, ht⟩

/-- Witness for C7 (amended) at a concrete store. -/
theorem c7_witness :
    (∀ d, d ∈ (exC9.get_record_set rootName RecordType.NS).getD [] ↔
      (∃ se ∈ exC9.get_records rootName, ∃ items, se.2 = REntry.Entries items ∧ d ∈ items) ∧
        toRecordType d = RecordType.NS) ∧
    ((exC9.get_record_set rootName RecordType.NS).getD []).Nodup :=
  c7_record_set exC9 rootName RecordType.NS _ rfl

/-- C8 counterexample: an unknown-variant record is stored by `add_record`
without crashing, but a type-filtered read requesting exactly the record's
own type panics in the dedup hash (`none`) instead of skipping the record,
refuting the claim for that requested type. -/
theorem c8_counterexample :
    ¬ (∀ (s : RecordDB) (rec : Record) (ip : IpAddr) (t : RecordType),
        hashable rec.rdata = false →
        ∃ l, (s.add_record rec ip).get_record_set rec.name t = some l ∧ rec.rdata ∉ l) := by
  intro hclaim
  obtain ⟨l, hl, _⟩ := hclaim RecordDB.new exRecU (IpAddr.v4 9) (RecordType.Unknown 7) rfl
  rw [show (RecordDB.new.add_record exRecU (IpAddr.v4 9)).get_record_set exRecU.name
      (RecordType.Unknown 7) = none from rfl] at hl
  exact Option.noConfusion hl

/-- C8 amended: ingest never crashes on an unknown record type — after
`add_record` the slot's `Entries` list holds the RData — and a
type-filtered read skips the record whenever the requested type differs
from the record's own type; requesting the record's own type, however,
panics in the partial hash instead of skipping (see the counterexample). -/
theorem c8_unknown_records (s : RecordDB) (rec : Record) (ip : IpAddr) (t : RecordType)
    (l : List RData) (_hh : hashable rec.rdata = false)
    (ht : t ≠ toRecordType rec.rdata) :
    (∃ v, slotOf (s.add_record rec ip) rec.name (RServer.ofIp ip) =
        some (REntry.Entries v) ∧ rec.rdata ∈ v) ∧
    ((s.add_record rec ip).get_record_set rec.name t = some l → rec.rdata ∉ l) := by
  constructor
  · rw [slotOf_add_record]
    cases hslot : slotOf s rec.name (RServer.ofIp ip) with
    | none => exact ⟨[rec.rdata], rfl, List.mem_singleton_self _⟩
    | some e =>
      cases e with
      | Entries v => exact ⟨v ++ [rec.rdata], rfl, by simp⟩
      | NoEntry => exact ⟨[rec.rdata], rfl, List.mem_singleton_self _⟩
      | TimeOut => exact ⟨[rec.rdata], rfl, List.mem_singleton_self _⟩
  · intro h hmem
    exact ht ((getRecordSetR_types h rec.rdata hmem).symm)

/-- Witness for C8 (amended): the unknown record is stored and an A-typed
read skips it. -/
theorem c8_witness :
    (∃ v, slotOf (RecordDB.new.add_record exRecU (IpAddr.v4 9)) exRecU.name
        (RServer.ofIp (IpAddr.v4 9)) = some (REntry.Entries v) ∧ exRecU.rdata ∈ v) ∧
    ((RecordDB.new.add_record exRecU (IpAddr.v4 9)).get_record_set exRecU.name RecordType.A =
        some [] → exRecU.rdata ∉ ([] : List RData)) :=
  c8_unknown_records RecordDB.new exRecU (IpAddr.v4 9) RecordType.A [] rfl (by decide)

/-! ### C9: find_closest_domain -/

theorem zone_of_iff (a b : Name) : zone_of a b = true ↔ a <:+ b :=
  List.isSuffixOf_iff_suffix

theorem zone_of_root (b : Name) : zone_of rootName b = true :=
  (zone_of_iff rootName b).mpr List.nil_suffix

theorem zip_self_append {α : Type} (l t : List α) : l.zip (l ++ t) = l.zip l := by
  induction l with
  | nil => rfl
  | cons x xs ih => simp only [List.cons_append, List.zip_cons_cons, ih]

theorem countMatchingTail_of_suffix {a b : Name} (h : a <:+ b) :
    countMatchingTail a b = a.length := by
  obtain ⟨t, ht⟩ := List.reverse_prefix.mpr h
  unfold countMatchingTail
  rw [← ht, zip_self_append]
  have hz : ∀ l : List String,
      ((l.zip l).filter (fun p => decide (p.1 = p.2))).length = l.length := by
    intro l
    induction l with
    | nil => rfl
    | cons x xs ih => simp [List.zip_cons_cons, List.filter_cons, ih]
  rw [hz a.reverse, List.length_reverse]

theorem foldl_congr_id {α γ : Type} (g : γ → α → γ) (l : List α)
    (h : ∀ acc x, x ∈ l → g acc x = acc) : ∀ acc, l.foldl g acc = acc := by
  induction l with
  | nil => intro acc; rfl
  | cons x t ih =>
    intro acc
    simp only [List.foldl_cons]
    rw [h acc x (List.mem_cons_self x t)]
    exact ih (fun a y hy => h a y (List.mem_cons_of_mem x hy)) acc

theorem fcdStep_fold (name : Name) (l : List (Name × ServerMap)) :
    ∀ acc : Name × Nat,
      acc.2 = acc.1.length →
      (acc.1 = rootName ∨ zone_of acc.1 name = true) →
      ((l.foldl (fcdStep name) acc).2 = (l.foldl (fcdStep name) acc).1.length ∧
       (l.foldl (fcdStep name) acc = acc ∨
         (∃ p ∈ l, (l.foldl (fcdStep name) acc).1 = p.1 ∧
           zone_of (l.foldl (fcdStep name) acc).1 name = true)) ∧
       acc.2 ≤ (l.foldl (fcdStep name) acc).2 ∧
       (∀ p ∈ l, zone_of p.1 name = true → p.1.length ≤ (l.foldl (fcdStep name) acc).2)) := by
  induction l with
  | nil =>
    intro acc h1 _
    exact ⟨h1, Or.inl rfl, Nat.le_refl _, fun p hp _ => absurd hp (List.not_mem_nil p)⟩
  | cons q rest ih =>
    intro acc h1 h2
    simp only [List.foldl_cons]
    by_cases hz : zone_of q.1 name = true
    · have hc : countMatchingTail q.1 name = q.1.length :=
        countMatchingTail_of_suffix ((zone_of_iff q.1 name).mp hz)
    
      by_cases hlt : acc.2 < countMatchingTail q.1 name
      · have hstep : fcdStep name acc q = (q.1, countMatchingTail q.1 name) := by
          simp [fcdStep, hz, hlt]
        rw [hstep]
        obtain ⟨g1, g2, g3, g4⟩ := ih (q.1, countMatchingTail q.1 name) hc (Or.inr hz)
        refine ⟨g1, ?_, ?_, ?_⟩
        · rcases g2 with g2 | ⟨p, hp, hpe, hpz⟩
          · refine Or.inr ⟨q, List.mem_cons_self _ _, by rw [g2], ?_⟩
            rw [g2]
            exact hz
          · exact Or.inr ⟨p, List.mem_cons_of_mem _ hp, hpe, hpz⟩
        · exact Nat.le_trans (Nat.le_of_lt hlt) g3
        · intro p hp hpz
          rcases List.mem_cons.mp hp with rfl | hp2
          · rw [← hc]
            exact g3
          · exact g4 p hp2 hpz
      · have hstep : fcdStep name acc q = acc := by
          simp [fcdStep, hz, hlt]
        rw [hstep]
        obtain ⟨g1, g2, g3, g4⟩ := ih acc h1 h2
        refine ⟨g1, ?_, g3, ?_⟩
        · rcases g2 with g2 | ⟨p, hp, hpe, hpz⟩
          · exact Or.inl g2
          · exact Or.inr ⟨p, List.mem_cons_of_mem _ hp, hpe, hpz⟩
        · intro p hp hpz
          rcases List.mem_cons.mp hp with rfl | hp2
          · rw [← hc]
            exact Nat.le_trans (Nat.le_of_not_lt hlt) g3
          · exact g4 p hp2 hpz
    · have hstep : fcdStep name acc q = acc := by
        simp [fcdStep, hz]
      rw [hstep]
      obtain ⟨g1, g2, g3, g4⟩ := ih acc h1 h2
      refine ⟨g1, ?_, g3, ?_⟩
      · rcases g2 with g2 | ⟨p, hp, hpe, hpz⟩
        · exact Or.inl g2
        · exact Or.inr ⟨p, List.mem_cons_of_mem _ hp, hpe, hpz⟩
      · intro p hp hpz
        rcases List.mem_cons.mp hp with rfl | hp2
        · exact absurd hpz hz
        · exact g4 p hp2 hpz

/-- C9: `find_closest_domain n` returns a stored name that is an ancestor of
`n` and whose label count no stored ancestor of `n` exceeds; when no stored
name is an ancestor of `n` it returns the root name `.`. -/
theorem c9_find_closest (s : RecordDB) (n : Name) :
    ((∃ p ∈ s.records, zone_of p.1 n = true) →
      (∃ p ∈ s.records, s.find_closest_domain n = p.1) ∧
      zone_of (s.find_closest_domain n) n = true ∧
      (∀ p ∈ s.records, zone_of p.1 n = true →
        p.1.length ≤ (s.find_closest_domain n).length)) ∧
    ((∀ p ∈ s.records, zone_of p.1 n = false) → s.find_closest_domain n = rootName) := by
  obtain ⟨g1, g2, g3, g4⟩ := fcdStep_fold n s.records (rootName, 0) rfl (Or.inl rfl)
  have heq : s.find_closest_domain n = (s.records.foldl (fcdStep n) (rootName, 0)).1 := rfl
  constructor
  · rintro ⟨p0, hp0, hz0⟩
    rcases g2 with g2 | ⟨p, hp, hpe, hpz⟩
    · have hb := g4 p0 hp0 hz0
      rw [g2] at hb
      have hp0len : p0.1 = [] := List.length_eq_zero.mp (Nat.le_zero.mp hb)
      refine ⟨⟨p0, hp0, ?_⟩, ?_, ?_⟩
      · rw [heq, g2, hp0len]
        rfl
      · rw [heq, g2]
        exact zone_of_root n
      · intro q hq hqz
        have hql := g4 q hq hqz
        rw [g2] at hql
        rw [heq, g2]
        exact hql
    · refine ⟨⟨p, hp, by rw [heq]; exact hpe⟩, by rw [heq]; exact hpz, ?_⟩
      intro q hq hqz
      rw [heq, ← g1]
      exact g4 q hq hqz
  · intro hall
    have hid : s.records.foldl (fcdStep n) (rootName, 0) = (rootName, 0) :=
      foldl_congr_id (fcdStep n) s.records
        (fun acc x hx => by simp [fcdStep, hall x hx]) (rootName, 0)
    rw [heq, hid]

/-- Witness for C9 at the S5 scenario: records stored at `.`, `com.` and
`google.com.`, queried with `mail.google.com.`. -/
theorem c9_witness :
    (∃ p ∈ exC9.records, exC9.find_closest_domain exC9query = p.1) ∧
    zone_of (exC9.find_closest_domain exC9query) exC9query = true ∧
    (∀ p ∈ exC9.records, zone_of p.1 exC9query = true →
      p.1.length ≤ (exC9.find_closest_domain exC9query).length) :=
  (c9_find_closest exC9 exC9query).1 (by decide)
